import Mathlib

/-!
# The deck rendering backend of blackfriday (`deck.go`)

A shallow embedding of `deck.go` and theorems about it.

* A `bytes.Buffer` is the list of its unread bytes; `Truncate` past the end
  panics in Go and is `none` here.
* `float64` is IEEE-754 binary64 with round-to-nearest-even (`Float64`); `%.2f`
  is `Float64.fmt2`.
* Go `int` is 64 bits wide: `slidenumber++` wraps (`wrapInt`).
* A children callback `func() bool` is a closure over the renderer and the
  sink: a function from both to both and the reported boolean (`Children`).
* What `deck.go` uses from other files of the package (`attrEscape`, the
  `LIST_*` flag constants) is a parameter (`Env`).
-/

namespace Blackfriday

/-! ## Bytes and buffers -/

abbrev Byte := UInt8

/-- A byte slice `[]byte`, or the bytes of a Go `string`. -/
abbrev Bytes := List Byte

/-- An `[]int`. -/
abbrev Ints := List Int

/-- The UTF-8 bytes of a Go string literal. -/
def bytes (s : String) : Bytes := s.data.flatMap String.utf8EncodeChar

/-- The unread content of a `bytes.Buffer`. -/
abbrev Buffer := Bytes

/-- The method `(*bytes.Buffer).Len`. -/
def Buffer.Len (out : Buffer) : Nat := out.length

/-- The methods `(*bytes.Buffer).Write` and `WriteString`: append. -/
def Buffer.Write (out : Buffer) (p : Bytes) : Buffer := out ++ p

/-- The method `(*bytes.Buffer).Truncate`: keep the first `n` bytes; it panics
(`none`) when `n` is larger than the length. -/
def Buffer.Truncate (out : Buffer) (n : Nat) : Option Buffer :=
  if n ≤ out.length then some (out.take n) else none

/-- The function `strings.Split` for a one-byte separator: the pieces of `s`
between the occurrences of `sep` (one piece more than there are occurrences). -/
def Split (s : Bytes) (sep : Byte) : List Bytes :=
  match s with
  | [] => [[]]
  | b :: rest =>
    if b = sep then [] :: Split rest sep
    else
      match Split rest sep with
      | [] => [[b]]
      | t :: ts => (b :: t) :: ts

/-! ## float64 -/

/-- IEEE-754 binary64 values: `fin neg m e` is `(-1)^neg * m * 2^e`. The
values the operations below produce have `m < 2^53`, `-1074 ≤ e ≤ 971`, and
`2^52 ≤ m` unless `e = -1074` (subnormal) or `m = 0`. -/
inductive Float64 where
  | nan
  | inf (neg : Bool)
  | fin (neg : Bool) (m : Nat) (e : Int)
  deriving DecidableEq, Repr

namespace Float64

def bitLenAux : Nat → Nat → Nat
  | 0, _ => 0
  | fuel + 1, n => if n = 0 then 0 else bitLenAux fuel (n / 2) + 1

/-- Number of binary digits of `n`. -/
def bitLen (n : Nat) : Nat := bitLenAux n n

/-- The quotient `n / d` rounded to the nearest integer, ties to even. -/
def divRoundEven (n d : Nat) : Nat :=
  let q := n / d
  let r := n % d
  if d < 2 * r ∨ (2 * r = d ∧ q % 2 = 1) then q + 1 else q

/-- The fraction `n / den * 2^e` as numerator and denominator. -/
def scaled (n den : Nat) (e : Int) : Nat × Nat :=
  if 0 ≤ e then (n * 2 ^ e.toNat, den) else (n, den * 2 ^ (-e).toNat)

/-- The binary64 value nearest to `(-1)^neg * n / den`, ties to even;
overflow gives an infinity. -/
def round (neg : Bool) (n den : Nat) : Float64 :=
  if n = 0 then fin neg 0 0 else
  let e0 : Int := (bitLen n : Int) - (bitLen den : Int) - 53
  let s0 := scaled n den (-e0)
  let e1 : Int := if 2 ^ 53 ≤ s0.1 / s0.2 then e0 + 1 else e0
  let e2 : Int := if e1 < -1074 then -1074 else e1
  let s := scaled n den (-e2)
  let m := divRoundEven s.1 s.2
  let r : Nat × Int := if m = 2 ^ 53 then (2 ^ 52, e2 + 1) else (m, e2)
  if 971 < r.2 then inf neg else if r.1 = 0 then fin neg 0 0 else fin neg r.1 r.2

/-- An integer constant converted to float64 (`10`, `90`, `1024`, ...). -/
def ofNat (k : Nat) : Float64 := round false k 1

/-- A decimal constant `num / den` converted to float64 (`1.6` is `16 / 10`). -/
def ofDecimal (num den : Nat) : Float64 := round false num den

def neg : Float64 → Float64
  | nan => nan
  | inf s => inf (!s)
  | fin s m e => fin (!s) m e

/-- Addition of float64 values: the exact sum, rounded. -/
def add : Float64 → Float64 → Float64
  | nan, _ => nan
  | _, nan => nan
  | inf s, inf t => if s = t then inf s else nan
  | inf s, fin _ _ _ => inf s
  | fin _ _ _, inf t => inf t
  | fin s m e, fin t n f =>
    let g := if e ≤ f then e else f
    let a : Int := if s then -((m * 2 ^ (e - g).toNat : Nat) : Int)
      else ((m * 2 ^ (e - g).toNat : Nat) : Int)
    let b : Int := if t then -((n * 2 ^ (f - g).toNat : Nat) : Int)
      else ((n * 2 ^ (f - g).toNat : Nat) : Int)
    let c := a + b
    if c = 0 then fin (s && t) 0 0
    else
      let p := scaled c.natAbs 1 g
      round (decide (c < 0)) p.1 p.2

def sub (x y : Float64) : Float64 := add x (neg y)

/-- The ASCII digit of `n % 10`. -/
def digit (n : Nat) : Byte := UInt8.ofNat (48 + n % 10)

def natDigitsAux : Nat → Nat → Bytes → Bytes
  | 0, _, acc => acc
  | fuel + 1, n, acc =>
    if n < 10 then digit n :: acc else natDigitsAux fuel (n / 10) (digit n :: acc)

/-- The decimal digits of `n`. -/
def natDigits (n : Nat) : Bytes := natDigitsAux (n + 1) n []

/-- The verb `%.2f` of package fmt: the exact value rounded to two fraction
digits, ties to even; a set sign bit prints `-`. -/
def fmt2 : Float64 → Bytes
  | nan => bytes "NaN"
  | inf false => bytes "+Inf"
  | inf true => bytes "-Inf"
  | fin s m e =>
    let p := scaled (m * 100) 1 e
    let h := divRoundEven p.1 p.2
    (if s then bytes "-" else []) ++ natDigits (h / 100) ++ bytes "."
      ++ [digit (h / 10), digit h]

end Float64

/-! ## int -/

/-- Go `int` arithmetic on a 64-bit target: the result wraps into
`[-2^63, 2^63)`. -/
def wrapInt (i : Int) : Int := (i + 2 ^ 63) % 2 ^ 64 - 2 ^ 63

/-! ## The renderer -/

/-- The struct `Deck`. -/
structure Deck where
  slidenumber : Int
  xp : Float64
  yp : Float64
  sp : Float64
  cw : Float64
  ch : Float64
  deriving DecidableEq, Repr

/-- What `deck.go` uses from the other files of package blackfriday: the
bytes `attrEscape(out, src)` writes to `out` for `src`, and the list flag
constants. -/
structure Env where
  attrEscape : Bytes → Bytes
  LIST_TYPE_ORDERED : Int
  LIST_ITEM_PLAIN : Int

/-- A children callback `text func() bool`: it may change the renderer and
the sink, and reports whether it rendered anything. -/
abbrev Children := Deck → Buffer → (Deck × Buffer) × Bool

/-- The function `DeckRenderer`. -/
def DeckRenderer (_flags : Int) : Deck :=
  { slidenumber := 0, xp := .ofNat 10, yp := .ofNat 90, sp := .ofNat 2,
    cw := .ofNat 1024, ch := .ofNat 768 }

def Deck.renderText (options : Deck) (ttype : Bytes) : Bytes :=
  bytes "<text xp=\"" ++ options.xp.fmt2 ++ bytes "\" yp=\"" ++ options.yp.fmt2
    ++ bytes "\" sp=\"" ++ options.sp.fmt2 ++ bytes "\" type=\"" ++ ttype ++ bytes "\">"

def Deck.BlockCode (env : Env) (options : Deck) (out : Buffer) (text : Bytes)
    (_lang : Bytes) : Deck × Buffer :=
  let options := { options with sp := .ofDecimal 16 10 }
  let out := out.Write (options.renderText (bytes "code"))
  let out := out.Write (env.attrEscape text)
  let out := out.Write (bytes "</text>\n")
  (options, out)

def Deck.BlockQuote (env : Env) (options : Deck) (out : Buffer) (text : Bytes) :
    Deck × Buffer :=
  let options := { options with xp := options.xp.add (.ofNat 5) }
  let out := out.Write (options.renderText (bytes "block"))
  let out := out.Write (env.attrEscape text)
  let out := out.Write (bytes "</text>\n")
  (options, out)

def Deck.BlockHtml (options : Deck) (out : Buffer) (_text : Bytes) : Deck × Buffer :=
  (options, out)

def Deck.Header (options : Deck) (out : Buffer) (text : Children) (level : Int) :
    Option (Deck × Buffer) :=
  let marker := out.Len
  let options := { options with xp := .ofNat 10 }
  let opened : Deck × Buffer :=
    if level = 1 then
      let options := { options with yp := .ofNat 90, sp := .ofNat 4 }
      (options, out.Write (options.renderText (bytes "")))
    else if level = 2 then
      let options := { options with yp := .ofNat 40, sp := .ofNat 3 }
      (options, out.Write (options.renderText (bytes "")))
    else (options, out)
  let r := text opened.1 opened.2
  let options := r.1.1
  let out := r.1.2
  if !r.2 then
    (out.Truncate marker).map fun out => (options, out)
  else
    let out := out.Write (bytes "</text>\n")
    some ({ options with yp := options.yp.sub (.ofNat 10) }, out)

def Deck.HRule (options : Deck) (out : Buffer) : Deck × Buffer :=
  let options := { options with slidenumber := wrapInt (options.slidenumber + 1) }
  let options := { options with xp := .ofNat 10 }
  let options := { options with yp := .ofNat 90 }
  let options := { options with sp := .ofNat 2 }
  (options, out.Write (bytes "</slide>\n<slide>\n"))

def Deck.renderList (options : Deck) (ltype : Bytes) : Bytes :=
  bytes "<list xp=\"" ++ options.xp.fmt2 ++ bytes "\" yp=\"" ++ options.yp.fmt2
    ++ bytes "\" sp=\"" ++ options.sp.fmt2 ++ bytes "\" type=\"" ++ ltype ++ bytes "\">\n"

def Deck.List (env : Env) (options : Deck) (out : Buffer) (text : Children) (flags : Int) :
    Option (Deck × Buffer) :=
  let marker := out.Len
  let options := { options with sp := .ofNat 2 }
  let out :=
    if Int.land flags env.LIST_TYPE_ORDERED ≠ 0 then
      out.Write (options.renderList (bytes "number"))
    else if Int.land flags env.LIST_ITEM_PLAIN ≠ 0 then
      out.Write (options.renderList (bytes "plain"))
    else
      out.Write (options.renderList (bytes "bullet"))
  let r := text options out
  let options := r.1.1
  let out := r.1.2
  if !r.2 then
    (out.Truncate marker).map fun out => (options, out)
  else
    some (options, out.Write (bytes "</list>\n"))

def Deck.ListItem (options : Deck) (out : Buffer) (text : Bytes) (_flags : Int) :
    Deck × Buffer :=
  let out := out.Write (bytes "<li>")
  let out := out.Write text
  let out := out.Write (bytes "</li>\n")
  (options, out)

def Deck.Paragraph (options : Deck) (out : Buffer) (text : Children) :
    Option (Deck × Buffer) :=
  let marker := out.Len
  let options := { options with sp := .ofNat 2 }
  let out := out.Write (options.renderText (bytes "block"))
  let r := text options out
  let options := r.1.1
  let out := r.1.2
  if !r.2 then
    (out.Truncate marker).map fun out => (options, out)
  else
    let out := out.Write (bytes "</text>\n")
    some ({ options with yp := options.yp.sub (.ofNat 20) }, out)

def Deck.Table (options : Deck) (out : Buffer) (_header _body : Bytes)
    (_columnData : Ints) : Deck × Buffer :=
  (options, out)

def Deck.TableRow (options : Deck) (out : Buffer) (_text : Bytes) : Deck × Buffer :=
  (options, out)

def Deck.TableCell (options : Deck) (out : Buffer) (_text : Bytes) (_align : Int) :
    Deck × Buffer :=
  (options, out)

def Deck.Footnotes (options : Deck) (out : Buffer) (_text : Children) : Deck × Buffer :=
  (options, out)

def Deck.FootnoteItem (options : Deck) (out : Buffer) (_name _text : Bytes)
    (_flags : Int) : Deck × Buffer :=
  (options, out)

def Deck.AutoLink (options : Deck) (out : Buffer) (_link : Bytes) (_kind : Int) :
    Deck × Buffer :=
  (options, out)

def Deck.CodeSpan (options : Deck) (out : Buffer) (_text : Bytes) : Deck × Buffer :=
  (options, out)

def Deck.DoubleEmphasis (options : Deck) (out : Buffer) (_text : Bytes) :
    Deck × Buffer :=
  (options, out)

def Deck.Emphasis (options : Deck) (out : Buffer) (_text : Bytes) : Deck × Buffer :=
  (options, out)

def Deck.Image (env : Env) (options : Deck) (out : Buffer) (link title alt : Bytes) :
    Deck × Buffer :=
  let imgattr := Split alt 44
  let out := out.Write (bytes "<image name=\"")
  let out := out.Write (env.attrEscape link)
  let out :=
    if imgattr.length = 4 then
      out.Write (bytes "\" xp=\"" ++ imgattr.getD 0 [] ++ bytes "\" yp=\"" ++ imgattr.getD 1 []
        ++ bytes "\" width=\"" ++ imgattr.getD 2 [] ++ bytes "\" height=\""
        ++ imgattr.getD 3 [] ++ bytes "\"")
    else
      out.Write (bytes " xp=\"50\" yp=\"50\" width=\"100\" height=\"100\"")
  let out :=
    if 0 < title.length then
      let out := out.Write (bytes " caption=\"")
      let out := out.Write (env.attrEscape title)
      out.Write (bytes "\"")
    else out
  (options, out.Write (bytes " />\n"))

def Deck.LineBreak (options : Deck) (out : Buffer) : Deck × Buffer :=
  (options, out)

def Deck.Link (options : Deck) (out : Buffer) (_link _title _content : Bytes) :
    Deck × Buffer :=
  (options, out)

def Deck.RawHtmlTag (options : Deck) (out : Buffer) (_tag : Bytes) : Deck × Buffer :=
  (options, out)

def Deck.TripleEmphasis (options : Deck) (out : Buffer) (_text : Bytes) :
    Deck × Buffer :=
  (options, out)

def Deck.StrikeThrough (options : Deck) (out : Buffer) (_text : Bytes) :
    Deck × Buffer :=
  (options, out)

def Deck.FootnoteRef (options : Deck) (out : Buffer) (_ref : Bytes) (_id : Int) :
    Deck × Buffer :=
  (options, out)

def Deck.Entity (options : Deck) (out : Buffer) (entity : Bytes) : Deck × Buffer :=
  (options, out.Write entity)

def Deck.NormalText (env : Env) (options : Deck) (out : Buffer) (text : Bytes) :
    Deck × Buffer :=
  (options, out.Write (env.attrEscape text))

def Deck.DocumentHeader (options : Deck) (out : Buffer) : Deck × Buffer :=
  (options, out.Write (bytes "<deck>\n<slide>\n"))

def Deck.DocumentFooter (options : Deck) (out : Buffer) : Deck × Buffer :=
  (options, out.Write (bytes "</slide>\n</deck>\n"))

/-! ## The collaborators outside `deck.go` -/

def attrEscapeByte (b : Byte) : Bytes :=
  if b = 34 then bytes "&quot;"
  else if b = 38 then bytes "&amp;"
  else if b = 60 then bytes "&lt;"
  else if b = 62 then bytes "&gt;"
  else [b]

/-- Modelled from the spec: `attrEscape`, the attribute-escaping collaborator,
is defined in another file of the package. The spec says that it "writes an
attribute-value-safe representation to the sink" and that a markup-significant
character such as `<` "is emitted in its escaped form": the four characters
that are significant in markup (quote, ampersand, less-than, greater-than) are
written as their entity references and every other byte as it is. -/
def attrEscape (src : Bytes) : Bytes := src.flatMap attrEscapeByte

/-- The environment the concrete runs below use: the spec's escaping
collaborator, and two different single bits for the list flags. -/
def stdEnv : Env :=
  { attrEscape := attrEscape, LIST_TYPE_ORDERED := 1, LIST_ITEM_PLAIN := 32 }

/-! ## Calls of the renderer -/

/-- One call of a method of the `Renderer` interface on a `Deck`. -/
inductive Op where
  | BlockCode (text : Bytes) (lang : Bytes)
  | BlockQuote (text : Bytes)
  | BlockHtml (text : Bytes)
  | Header (text : Children) (level : Int)
  | HRule
  | List (text : Children) (flags : Int)
  | ListItem (text : Bytes) (flags : Int)
  | Paragraph (text : Children)
  | Table (header body : Bytes) (columnData : Ints)
  | TableRow (text : Bytes)
  | TableCell (text : Bytes) (align : Int)
  | Footnotes (text : Children)
  | FootnoteItem (name text : Bytes) (flags : Int)
  | AutoLink (link : Bytes) (kind : Int)
  | CodeSpan (text : Bytes)
  | DoubleEmphasis (text : Bytes)
  | Emphasis (text : Bytes)
  | Image (link title alt : Bytes)
  | LineBreak
  | Link (link title content : Bytes)
  | RawHtmlTag (tag : Bytes)
  | TripleEmphasis (text : Bytes)
  | StrikeThrough (text : Bytes)
  | FootnoteRef (ref : Bytes) (id : Int)
  | Entity (entity : Bytes)
  | NormalText (text : Bytes)
  | DocumentHeader
  | DocumentFooter

/-- The call `op` made on the renderer `s.1` with the sink `s.2`; `none` when
the call panics. -/
def Op.apply (env : Env) (op : Op) (s : Deck × Buffer) : Option (Deck × Buffer) :=
  match op with
  | .BlockCode text lang => some (s.1.BlockCode env s.2 text lang)
  | .BlockQuote text => some (s.1.BlockQuote env s.2 text)
  | .BlockHtml text => some (s.1.BlockHtml s.2 text)
  | .Header text level => s.1.Header s.2 text level
  | .HRule => some (s.1.HRule s.2)
  | .List text flags => s.1.List env s.2 text flags
  | .ListItem text flags => some (s.1.ListItem s.2 text flags)
  | .Paragraph text => s.1.Paragraph s.2 text
  | .Table header body columnData => some (s.1.Table s.2 header body columnData)
  | .TableRow text => some (s.1.TableRow s.2 text)
  | .TableCell text align => some (s.1.TableCell s.2 text align)
  | .Footnotes text => some (s.1.Footnotes s.2 text)
  | .FootnoteItem name text flags => some (s.1.FootnoteItem s.2 name text flags)
  | .AutoLink link kind => some (s.1.AutoLink s.2 link kind)
  | .CodeSpan text => some (s.1.CodeSpan s.2 text)
  | .DoubleEmphasis text => some (s.1.DoubleEmphasis s.2 text)
  | .Emphasis text => some (s.1.Emphasis s.2 text)
  | .Image link title alt => some (s.1.Image env s.2 link title alt)
  | .LineBreak => some (s.1.LineBreak s.2)
  | .Link link title content => some (s.1.Link s.2 link title content)
  | .RawHtmlTag tag => some (s.1.RawHtmlTag s.2 tag)
  | .TripleEmphasis text => some (s.1.TripleEmphasis s.2 text)
  | .StrikeThrough text => some (s.1.StrikeThrough s.2 text)
  | .FootnoteRef ref id => some (s.1.FootnoteRef s.2 ref id)
  | .Entity entity => some (s.1.Entity s.2 entity)
  | .NormalText text => some (s.1.NormalText env s.2 text)
  | .DocumentHeader => some (s.1.DocumentHeader s.2)
  | .DocumentFooter => some (s.1.DocumentFooter s.2)

/-- A sequence of calls, one after the other; a panic ends the run. -/
def run (env : Env) (ops : List Op) (s : Deck × Buffer) : Option (Deck × Buffer) :=
  match ops with
  | [] => some s
  | op :: rest =>
    match op.apply env s with
    | none => none
    | some s1 => run env rest s1

/-- The children callback of a call, when it has one that the call may
invoke (`Footnotes` never invokes its own). -/
def Op.children : Op → Option Children
  | .Header text _ => some text
  | .List text _ => some text
  | .Paragraph text => some text
  | _ => none

/-- Whether the call is `HRule`. -/
def Op.isHRule : Op → Bool
  | .HRule => true
  | _ => false

/-- The number of `HRule` calls in a sequence. -/
def countHRule (ops : List Op) : Nat := ops.countP Op.isHRule

/-! ## Properties of children callbacks -/

/-- The callback only appends to the sink. -/
def AppendsOnly (text : Children) : Prop :=
  ∀ d o, ∃ c, (text d o).1.2 = o ++ c

/-- The callback reports `b` whatever it is called on. -/
def Reports (text : Children) (b : Bool) : Prop :=
  ∀ d o, (text d o).2 = b

/-- The callback leaves the renderer state as it is. -/
def KeepsState (text : Children) : Prop :=
  ∀ d o, (text d o).1.1 = d

/-- The callback that appends `c` to the sink, leaves the renderer alone and
reports `b`. -/
def writes (c : Bytes) (b : Bool) : Children :=
  fun d o => ((d, o.Write c), b)

/-! ## Markup predicates -/

/-- A single tag: it starts with `<`, ends with `>`, and holds no other `<`
or `>`. -/
def IsTag (t : Bytes) : Prop :=
  t.head? = some 60 ∧ t.getLast? = some 62 ∧ t.count 60 = 1 ∧ t.count 62 = 1

/-- The element name of an open tag `<name ...>` or a close tag `</name>`:
the bytes after `<` or `</` up to the first blank or `>`. -/
def tagName (t : Bytes) : Bytes :=
  match t with
  | 60 :: 47 :: rest => rest.takeWhile fun b => b != 32 && b != 62
  | 60 :: rest => rest.takeWhile fun b => b != 32 && b != 62
  | _ => []

/-! ## Concrete runs -/

/-- The calls a document with a level-1 header "Title", a paragraph "Body", a
horizontal rule and a level-2 header "Next" makes; the children callbacks write
the text and report true. -/
def twoSlides : List Op :=
  [.DocumentHeader, .Header (writes (bytes "Title") true) 1,
   .Paragraph (writes (bytes "Body") true), .HRule,
   .Header (writes (bytes "Next") true) 2, .DocumentFooter]

/-- The number of places of `s` where `pat` starts. -/
def countOcc (pat : Bytes) : Bytes → Nat
  | [] => if pat.isEmpty then 1 else 0
  | b :: rest => (if pat.isPrefixOf (b :: rest) then 1 else 0) + countOcc pat rest

/-- Whether the tag that starts at `t` (with its `<`) is a close tag `</name>`. -/
def isCloseTag (t : Bytes) : Bool :=
  match t with
  | 60 :: 47 :: _ => true
  | _ => false

/-- Whether the tag that starts at `t` closes itself (`<name ... />`). -/
def isSelfClosing (t : Bytes) : Bool :=
  (t.takeWhile fun b => b != 62).getLast? = some 47

/-- The open and close tags of `s` in order, each with its element name;
`true` marks a close tag. Tags that close themselves are left out. -/
def tagEvents : Bytes → List (Bool × Bytes)
  | [] => []
  | b :: rest =>
    if b = 60 ∧ ¬ isSelfClosing (b :: rest) then
      (isCloseTag (b :: rest), tagName (b :: rest)) :: tagEvents rest
    else tagEvents rest

/-- Whether a sequence of open and close tags is properly nested, starting
with the open elements `stack` (innermost first): every close tag closes the
innermost open element, and nothing is left open at the end. -/
def balanced : List (Bool × Bytes) → List Bytes → Bool
  | [], stack => stack.isEmpty
  | (false, name) :: rest, stack => balanced rest (name :: stack)
  | (true, name) :: rest, top :: stack => name == top && balanced rest stack
  | (true, _) :: _, [] => false

/-- Whether every open tag of `s` is matched by its close tag in properly
nested order. -/
def wellNested (s : Bytes) : Bool := balanced (tagEvents s) []

/-- The markup the calls of `twoSlides` produce. -/
def twoSlidesSink : Bytes :=
  bytes ("<deck>\n<slide>\n"
    ++ "<text xp=\"10.00\" yp=\"90.00\" sp=\"4.00\" type=\"\">Title</text>\n"
    ++ "<text xp=\"10.00\" yp=\"80.00\" sp=\"2.00\" type=\"block\">Body</text>\n"
    ++ "</slide>\n<slide>\n"
    ++ "<text xp=\"10.00\" yp=\"40.00\" sp=\"3.00\" type=\"\">Next</text>\n"
    ++ "</slide>\n</deck>\n")

/-! ## The list open tag as the spec describes it -/

/-- The type attribute the spec gives a list, by its three-way check: the
ordered flag takes precedence, else the plain-item flag, else "bullet". -/
def specListType (env : Env) (flags : Int) : Bytes :=
  if Int.land flags env.LIST_TYPE_ORDERED ≠ 0 then bytes "number"
  else if Int.land flags env.LIST_ITEM_PLAIN ≠ 0 then bytes "plain"
  else bytes "bullet"

/-- The open tag of a list as the spec describes it: the position of the
cursor, the default spacing printed as `2.00`, and the type. -/
def specListOpenTag (options : Deck) (ltype : Bytes) : Bytes :=
  bytes "<list xp=\"" ++ options.xp.fmt2 ++ bytes "\" yp=\"" ++ options.yp.fmt2
    ++ bytes "\" sp=\"2.00\" type=\"" ++ ltype ++ bytes "\">"

/-! ## Whole numbers as float64 -/

/-- An integer converted to float64: the nearest binary64 value, which is the
integer itself when its magnitude is below `2^53`. -/
def Float64.ofInt (k : Int) : Float64 := Float64.round (decide (k < 0)) k.natAbs 1

/-! ## Attributes of an element -/

/-- Whether `s` holds the attribute `name`, read from a place that is inside
a quoted value or not (`inQuote`): the bytes ` name="` start at a place outside
every quoted value. -/
def hasAttrFrom (name : Bytes) : Bytes → Bool → Bool
  | [], _ => false
  | b :: rest, inQuote =>
    if b = 34 then hasAttrFrom name rest (!inQuote)
    else (!inQuote && (32 :: name ++ [61, 34]).isPrefixOf (b :: rest))
      || hasAttrFrom name rest inQuote

/-- Whether the markup `s` holds the attribute `name`. -/
def hasAttr (name : Bytes) (s : Bytes) : Bool := hasAttrFrom name s false

/-! ## Decimal numerals -/

/-- Whether every byte of `ds` is an ASCII decimal digit. -/
def isDigits (ds : Bytes) : Bool :=
  ds.all fun b => decide (48 ≤ b.toNat) && decide (b.toNat ≤ 57)

/-- The number the decimal digits `ds` denote. -/
def decimalValue (ds : Bytes) : Nat :=
  ds.foldl (fun acc b => acc * 10 + (b.toNat - 48)) 0

/-! ## Lemmas and theorems -/

theorem Buffer.truncate_append (out x : Buffer) :
    Buffer.Truncate (out ++ x) out.Len = some out := by
  simp [Buffer.Truncate, Buffer.Len]

/-- What a container call does after its open tag, when the callback only
appends and reports false: the sink is cut back to the mark. -/
theorem rollback_step (text : Children) (happ : AppendsOnly text) (hfalse : Reports text false)
    (d : Deck) (out w : Buffer) (k : Option (Deck × Buffer)) :
    ∃ d1, (if !(text d (out ++ w)).2 then
        ((text d (out ++ w)).1.2.Truncate out.Len).map fun o => ((text d (out ++ w)).1.1, o)
      else k) = some (d1, out) := by
  obtain ⟨c, hc⟩ := happ d (out ++ w)
  refine ⟨(text d (out ++ w)).1.1, ?_⟩
  rw [hfalse d (out ++ w), hc, List.append_assoc, Buffer.truncate_append]
  simp

/-- C1. Rollback on empty content: when the children callback only appends to
the sink and reports false, `Header` (at every level), `Paragraph` and `List`
(with every flags value) return with the sink byte for byte as it was before
the call, whatever the callback wrote. -/
theorem rollback_on_empty_content (env : Env) (options : Deck) (out : Buffer)
    (text : Children) (happ : AppendsOnly text) (hfalse : Reports text false) :
    (∀ level : Int, ∃ d, options.Header out text level = some (d, out)) ∧
    (∃ d, options.Paragraph out text = some (d, out)) ∧
    (∀ flags : Int, ∃ d, options.List env out text flags = some (d, out)) := by
  refine ⟨fun level => ?_, ?_, fun flags => ?_⟩
  · by_cases h1 : level = 1
    · simp only [Deck.Header, h1, ↓reduceIte, Buffer.Write]
      exact rollback_step text happ hfalse _ out _ _
    · by_cases h2 : level = 2
      · simp only [Deck.Header, h2, ↓reduceIte, Buffer.Write]
        exact rollback_step text happ hfalse _ out _ _
      · simp only [Deck.Header, h1, h2, ↓reduceIte, Buffer.Write]
        simpa using rollback_step text happ hfalse _ out [] _
  · simp only [Deck.Paragraph, Buffer.Write]
    exact rollback_step text happ hfalse _ out _ _
  · by_cases h1 : Int.land flags env.LIST_TYPE_ORDERED = 0
    · by_cases h2 : Int.land flags env.LIST_ITEM_PLAIN = 0
      · simp only [Deck.List, h1, h2, ne_eq, not_true_eq_false, ↓reduceIte, Buffer.Write]
        exact rollback_step text happ hfalse _ out _ _
      · simp only [Deck.List, h1, h2, ne_eq, not_true_eq_false, not_false_eq_true, ↓reduceIte, Buffer.Write]
        exact rollback_step text happ hfalse _ out _ _
    · simp only [Deck.List, h1, ne_eq, not_false_eq_true, ↓reduceIte, Buffer.Write]
      exact rollback_step text happ hfalse _ out _ _


theorem rollback_on_empty_content_witness :
    AppendsOnly (writes (bytes "junk") false) ∧ Reports (writes (bytes "junk") false) false ∧
    ((∀ level : Int, ∃ d, (DeckRenderer 0).Header (bytes "<deck>\n") (writes (bytes "junk") false) level
        = some (d, bytes "<deck>\n")) ∧
     (∃ d, (DeckRenderer 0).Paragraph (bytes "<deck>\n") (writes (bytes "junk") false)
        = some (d, bytes "<deck>\n")) ∧
     (∀ flags : Int, ∃ d, (DeckRenderer 0).List stdEnv (bytes "<deck>\n") (writes (bytes "junk") false) flags
        = some (d, bytes "<deck>\n"))) :=
  ⟨fun _ _ => ⟨bytes "junk", rfl⟩, fun _ _ => rfl,
    rollback_on_empty_content stdEnv (DeckRenderer 0) (bytes "<deck>\n") (writes (bytes "junk") false)
      (fun _ _ => ⟨bytes "junk", rfl⟩) (fun _ _ => rfl)⟩

theorem Float64.digit_safe (n : Nat) :
    Float64.digit n ≠ 34 ∧ Float64.digit n ≠ 60 ∧ Float64.digit n ≠ 62 := by
  have h : n % 10 < 10 := Nat.mod_lt _ (by norm_num)
  unfold Float64.digit
  generalize n % 10 = r at h
  interval_cases r <;> decide

theorem Float64.natDigitsAux_safe (fuel n : Nat) (acc : Bytes)
    (hacc : ∀ b ∈ acc, b ≠ 34 ∧ b ≠ 60 ∧ b ≠ 62) :
    ∀ b ∈ Float64.natDigitsAux fuel n acc, b ≠ 34 ∧ b ≠ 60 ∧ b ≠ 62 := by
  induction fuel generalizing n acc with
  | zero => simpa [Float64.natDigitsAux] using hacc
  | succ k ih =>
    have hcons : ∀ b ∈ Float64.digit n :: acc, b ≠ 34 ∧ b ≠ 60 ∧ b ≠ 62 := by
      intro b hb
      rcases List.mem_cons.1 hb with h | h
      · rw [h]; exact Float64.digit_safe n
      · exact hacc b h
    unfold Float64.natDigitsAux
    split
    · exact hcons
    · exact ih _ _ hcons

/-- The bytes `%.2f` prints are never a quote, `<` or `>`. -/
theorem Float64.fmt2_safe (x : Float64) : ∀ b ∈ x.fmt2, b ≠ 34 ∧ b ≠ 60 ∧ b ≠ 62 := by
  cases x with
  | nan => decide
  | inf s => cases s <;> decide
  | fin s m e =>
    intro b hb
    simp only [Float64.fmt2, List.mem_append, List.mem_cons, List.mem_singleton,
      List.not_mem_nil, or_false] at hb
    rcases hb with ((h | h) | h) | h | h
    · cases s
      · simp at h
      · revert b; decide
    · exact Float64.natDigitsAux_safe _ _ [] (by simp) b h
    · revert b; decide
    · rw [h]; exact Float64.digit_safe _
    · rw [h]; exact Float64.digit_safe _

theorem Float64.count_fmt2 (x : Float64) : x.fmt2.count 60 = 0 ∧ x.fmt2.count 62 = 0 := by
  constructor <;> rw [List.count_eq_zero] <;> intro h
  · exact (Float64.fmt2_safe x _ h).2.1 rfl
  · exact (Float64.fmt2_safe x _ h).2.2 rfl

theorem Float64.fmt2_two : (Float64.ofNat 2).fmt2 = bytes "2.00" := by decide

theorem bytes_sp_block : bytes "\" sp=\"2.00\" type=\"block\">" =
    bytes "\" sp=\"" ++ (bytes "2.00" ++ (bytes "\" type=\"" ++ (bytes "block" ++ bytes "\">"))) := by
  decide

theorem bytes_sp_list (ltype : Bytes) :
    bytes "\" sp=\"2.00\" type=\"" ++ ltype ++ bytes "\">" ++ bytes "\n" =
    bytes "\" sp=\"" ++ (bytes "2.00" ++ (bytes "\" type=\"" ++ (ltype ++ bytes "\">\n"))) := by
  have h1 : bytes "\" sp=\"2.00\" type=\"" = bytes "\" sp=\"" ++ (bytes "2.00" ++ bytes "\" type=\"") := by
    decide
  have h2 : bytes "\">\n" = bytes "\">" ++ bytes "\n" := by decide
  rw [h1, h2]; simp only [List.append_assoc]

/-- A tag built from an opening piece, two `%.2f` numbers and a closing piece
is a single tag when the pieces bring the only `<` and `>`. -/
theorem isTag_pieces (p q r : Bytes) (x y : Float64)
    (hp : p.head? = some 60) (hr : r.getLast? = some 62)
    (hp60 : p.count 60 = 1) (hp62 : p.count 62 = 0)
    (hq60 : q.count 60 = 0) (hq62 : q.count 62 = 0)
    (hr60 : r.count 60 = 0) (hr62 : r.count 62 = 1) :
    IsTag (p ++ x.fmt2 ++ q ++ y.fmt2 ++ r) := by
  have hx := Float64.count_fmt2 x
  have hy := Float64.count_fmt2 y
  refine ⟨?_, ?_, ?_, ?_⟩
  · cases p with
    | nil => simp at hp
    | cons a p => simpa using hp
  · rw [List.getLast?_append, hr]; rfl
  · simp only [List.count_append, hp60, hq60, hr60, hx.1, hy.1]
  · simp only [List.count_append, hp62, hq62, hr62, hx.2, hy.2]

theorem isTag_list (x y : Float64) (ltype : Bytes)
    (h : ltype = bytes "number" ∨ ltype = bytes "plain" ∨ ltype = bytes "bullet") :
    IsTag (bytes "<list xp=\"" ++ x.fmt2 ++ bytes "\" yp=\"" ++ y.fmt2
        ++ bytes "\" sp=\"2.00\" type=\"" ++ ltype ++ bytes "\">") := by
  have key := isTag_pieces (bytes "<list xp=\"") (bytes "\" yp=\"")
    (bytes "\" sp=\"2.00\" type=\"" ++ ltype ++ bytes "\">") x y
  simp only [← List.append_assoc] at key ⊢
  apply key
  · decide
  · rcases h with h | h | h <;> subst h <;> decide
  · decide
  · decide
  · decide
  · decide
  · rcases h with h | h | h <;> subst h <;> decide
  · rcases h with h | h | h <;> subst h <;> decide

theorem tagName_text (rest : Bytes) : tagName (bytes "<text xp=\"" ++ rest) = bytes "text" := by
  have h : bytes "<text xp=\"" = [60, 116, 101, 120, 116, 32, 120, 112, 61, 34] := by decide
  rw [h]
  rfl

theorem tagName_list (rest : Bytes) : tagName (bytes "<list xp=\"" ++ rest) = bytes "list" := by
  have h : bytes "<list xp=\"" = [60, 108, 105, 115, 116, 32, 120, 112, 61, 34] := by decide
  rw [h]
  rfl

/-- C2. Wrapping of non-empty content: when the children callback appends `c`,
reports true and leaves the renderer alone, `Paragraph` leaves the sink at
`b ++ open ++ c ++ "</text>\n"` where `open` is one `<text ...>` tag with
`sp="2.00" type="block"`, and `List` leaves it at `b ++ open ++ "\n" ++ c ++
"</list>\n"` where `open` is one `<list ...>` tag; the close tag has the element
name of the open tag. -/
theorem wrapping_of_nonempty_content (env : Env) (options : Deck) (b c : Buffer)
    (text : Children) (htext : ∀ d o, text d o = ((d, o ++ c), true)) :
    (IsTag (bytes "<text xp=\"" ++ options.xp.fmt2 ++ bytes "\" yp=\"" ++ options.yp.fmt2
        ++ bytes "\" sp=\"2.00\" type=\"block\">") ∧
      tagName (bytes "<text xp=\"" ++ options.xp.fmt2 ++ bytes "\" yp=\"" ++ options.yp.fmt2
        ++ bytes "\" sp=\"2.00\" type=\"block\">") = tagName (bytes "</text>\n") ∧
      (options.Paragraph b text).map Prod.snd =
        some (b ++ (bytes "<text xp=\"" ++ options.xp.fmt2 ++ bytes "\" yp=\"" ++ options.yp.fmt2
          ++ bytes "\" sp=\"2.00\" type=\"block\">") ++ c ++ bytes "</text>\n")) ∧
    ∀ flags : Int, ∃ ltype : Bytes,
      (ltype = bytes "number" ∨ ltype = bytes "plain" ∨ ltype = bytes "bullet") ∧
      IsTag (bytes "<list xp=\"" ++ options.xp.fmt2 ++ bytes "\" yp=\"" ++ options.yp.fmt2
        ++ bytes "\" sp=\"2.00\" type=\"" ++ ltype ++ bytes "\">") ∧
      tagName (bytes "<list xp=\"" ++ options.xp.fmt2 ++ bytes "\" yp=\"" ++ options.yp.fmt2
        ++ bytes "\" sp=\"2.00\" type=\"" ++ ltype ++ bytes "\">") = tagName (bytes "</list>\n") ∧
      (options.List env b text flags).map Prod.snd =
        some (b ++ (bytes "<list xp=\"" ++ options.xp.fmt2 ++ bytes "\" yp=\"" ++ options.yp.fmt2
          ++ bytes "\" sp=\"2.00\" type=\"" ++ ltype ++ bytes "\">" ++ bytes "\n") ++ c
          ++ bytes "</list>\n") := by
  have htn : ∀ rest : Bytes, tagName (bytes "<text xp=\"" ++ rest) = tagName (bytes "</text>\n") :=
    fun rest => (tagName_text rest).trans (by decide)
  have hln : ∀ rest : Bytes, tagName (bytes "<list xp=\"" ++ rest) = tagName (bytes "</list>\n") :=
    fun rest => (tagName_list rest).trans (by decide)
  refine ⟨⟨?_, ?_, ?_⟩, fun flags => ?_⟩
  · exact isTag_pieces (bytes "<text xp=\"") (bytes "\" yp=\"")
      (bytes "\" sp=\"2.00\" type=\"block\">") _ _ (by decide) (by decide) (by decide)
      (by decide) (by decide) (by decide) (by decide) (by decide)
  · simp only [List.append_assoc]; exact htn _
  · simp only [Deck.Paragraph, Deck.renderText, Buffer.Write, htext, Float64.fmt2_two,
      bytes_sp_block, Bool.not_true, Bool.false_eq_true, ↓reduceIte, Option.map_some',
      List.append_assoc]
  · have hlist : ∀ ltype : Bytes,
        (some (b ++ { options with sp := Float64.ofNat 2 }.renderList ltype ++ c
            ++ bytes "</list>\n") : Option Buffer) =
          some (b ++ (bytes "<list xp=\"" ++ options.xp.fmt2 ++ bytes "\" yp=\""
            ++ options.yp.fmt2 ++ bytes "\" sp=\"2.00\" type=\"" ++ ltype ++ bytes "\">"
            ++ bytes "\n") ++ c ++ bytes "</list>\n") := by
      intro ltype
      have h := bytes_sp_list ltype
      simp only [List.append_assoc] at h
      simp only [Deck.renderList, Float64.fmt2_two, List.append_assoc, h]
    have hname : ∀ ltype : Bytes, tagName (bytes "<list xp=\"" ++ options.xp.fmt2
        ++ bytes "\" yp=\"" ++ options.yp.fmt2 ++ bytes "\" sp=\"2.00\" type=\"" ++ ltype
        ++ bytes "\">") = tagName (bytes "</list>\n") := by
      intro ltype
      simp only [List.append_assoc]; exact hln _
    by_cases h1 : Int.land flags env.LIST_TYPE_ORDERED = 0
    · by_cases h2 : Int.land flags env.LIST_ITEM_PLAIN = 0
      · refine ⟨bytes "bullet", Or.inr (Or.inr rfl), isTag_list _ _ _ (Or.inr (Or.inr rfl)),
          hname _, ?_⟩
        rw [← hlist]
        simp only [Deck.List, h1, h2, ne_eq, not_true_eq_false, ↓reduceIte, Buffer.Write,
          htext, Bool.not_true, Bool.false_eq_true, Option.map_some']
      · refine ⟨bytes "plain", Or.inr (Or.inl rfl), isTag_list _ _ _ (Or.inr (Or.inl rfl)),
          hname _, ?_⟩
        rw [← hlist]
        simp only [Deck.List, h1, h2, ne_eq, not_true_eq_false, not_false_eq_true, ↓reduceIte,
          Buffer.Write, htext, Bool.not_true, Bool.false_eq_true, Option.map_some']
    · refine ⟨bytes "number", Or.inl rfl, isTag_list _ _ _ (Or.inl rfl), hname _, ?_⟩
      rw [← hlist]
      simp only [Deck.List, h1, ne_eq, not_false_eq_true, ↓reduceIte, Buffer.Write,
        htext, Bool.not_true, Bool.false_eq_true, Option.map_some']

set_option maxRecDepth 100000 in
theorem wrapping_of_nonempty_content_witness :
    (∀ d o, writes (bytes "Body") true d o = ((d, o ++ bytes "Body"), true)) ∧
    (DeckRenderer 0).Paragraph (bytes "<slide>\n") (writes (bytes "Body") true) =
      some ({ DeckRenderer 0 with yp := Float64.ofNat 70 },
        bytes "<slide>\n<text xp=\"10.00\" yp=\"90.00\" sp=\"2.00\" type=\"block\">Body</text>\n") ∧
    ((DeckRenderer 0).Paragraph (bytes "<slide>\n") (writes (bytes "Body") true)).map Prod.snd =
      some (bytes "<slide>\n" ++ (bytes "<text xp=\"" ++ (DeckRenderer 0).xp.fmt2 ++ bytes "\" yp=\""
        ++ (DeckRenderer 0).yp.fmt2 ++ bytes "\" sp=\"2.00\" type=\"block\">") ++ bytes "Body"
        ++ bytes "</text>\n") :=
  ⟨fun _ _ => rfl, by decide,
    (wrapping_of_nonempty_content stdEnv (DeckRenderer 0) (bytes "<slide>\n") (bytes "Body")
      (writes (bytes "Body") true) (fun _ _ => rfl)).1.2.2⟩

theorem wrapInt_succ (i : Int) (h0 : -2 ^ 63 ≤ i) (h1 : i < 2 ^ 63 - 1) : wrapInt (i + 1) = i + 1 := by
  unfold wrapInt
  have : (i + 1 + 2 ^ 63) % 2 ^ 64 = i + 1 + 2 ^ 63 :=
    Int.emod_eq_of_lt (by omega) (by omega)
  omega

theorem Deck.Header_slidenumber (options : Deck) (out : Buffer) (text : Children) (level : Int)
    (s1 : Deck × Buffer) (hk : KeepsState text) (h : options.Header out text level = some s1) :
    s1.1.slidenumber = options.slidenumber := by
  have hk1 : ∀ d o, (text d o).1.1 = d := hk
  unfold Deck.Header at h
  simp only [hk1] at h
  split_ifs at h <;>
    first
    | (obtain ⟨o, -, rfl⟩ := Option.map_eq_some'.1 h; simp)
    | (cases h; simp)

theorem Deck.Paragraph_slidenumber (options : Deck) (out : Buffer) (text : Children)
    (s1 : Deck × Buffer) (hk : KeepsState text) (h : options.Paragraph out text = some s1) :
    s1.1.slidenumber = options.slidenumber := by
  have hk1 : ∀ d o, (text d o).1.1 = d := hk
  unfold Deck.Paragraph at h
  simp only [hk1] at h
  split_ifs at h <;>
    first
    | (obtain ⟨o, -, rfl⟩ := Option.map_eq_some'.1 h; simp)
    | (cases h; simp)

theorem Deck.List_slidenumber (env : Env) (options : Deck) (out : Buffer) (text : Children)
    (flags : Int) (s1 : Deck × Buffer) (hk : KeepsState text)
    (h : options.List env out text flags = some s1) :
    s1.1.slidenumber = options.slidenumber := by
  have hk1 : ∀ d o, (text d o).1.1 = d := hk
  unfold Deck.List at h
  simp only [hk1] at h
  split_ifs at h <;>
    first
    | (obtain ⟨o, -, rfl⟩ := Option.map_eq_some'.1 h; simp)
    | (cases h; simp)

/-- The slide counter after one call: `HRule` adds one (in `int` arithmetic),
every other call keeps it. -/
theorem Op.apply_slidenumber (env : Env) (op : Op) (s s1 : Deck × Buffer)
    (hk : ∀ text, op.children = some text → KeepsState text) (h : op.apply env s = some s1) :
    s1.1.slidenumber =
      if op.isHRule then wrapInt (s.1.slidenumber + 1) else s.1.slidenumber := by
  cases op
  case HRule => cases h; rfl
  case Header text level => exact Deck.Header_slidenumber _ _ _ _ _ (hk text rfl) h
  case Paragraph text => exact Deck.Paragraph_slidenumber _ _ _ _ (hk text rfl) h
  case List text flags => exact Deck.List_slidenumber _ _ _ _ _ _ (hk text rfl) h
  all_goals
    cases h
    rfl

/-- A container call whose callback only appends does not panic. -/
theorem Op.apply_returns (env : Env) (op : Op) (s : Deck × Buffer)
    (ha : ∀ text, op.children = some text → AppendsOnly text) :
    ∃ s1, op.apply env s = some s1 := by
  have key : ∀ (text : Children) (d : Deck) (out w : Buffer) (k : Option (Deck × Buffer)),
      AppendsOnly text → (∃ s1, k = some s1) →
      ∃ s1, (if !(text d (out ++ w)).2 then
        ((text d (out ++ w)).1.2.Truncate out.Len).map fun o => ((text d (out ++ w)).1.1, o)
      else k) = some s1 := by
    intro text d out w k happ hk
    obtain ⟨c, hc⟩ := happ d (out ++ w)
    by_cases hb : (text d (out ++ w)).2 = true
    · simpa [hb] using hk
    · refine ⟨((text d (out ++ w)).1.1, out), ?_⟩
      rw [hc, List.append_assoc, Buffer.truncate_append]
      simp [hb]
  cases op
  case Header text level =>
    have happ := ha text rfl
    by_cases h1 : level = 1
    · simp only [Op.apply, Deck.Header, h1, ↓reduceIte, Buffer.Write]
      exact key text _ s.2 _ _ happ ⟨_, rfl⟩
    · by_cases h2 : level = 2
      · simp only [Op.apply, Deck.Header, h2, ↓reduceIte, Buffer.Write]
        exact key text _ s.2 _ _ happ ⟨_, rfl⟩
      · simp only [Op.apply, Deck.Header, h1, h2, ↓reduceIte, Buffer.Write]
        simpa using key text _ s.2 [] _ happ ⟨_, rfl⟩
  case Paragraph text =>
    simp only [Op.apply, Deck.Paragraph, Buffer.Write]
    exact key text _ s.2 _ _ (ha text rfl) ⟨_, rfl⟩
  case List text flags =>
    have happ := ha text rfl
    by_cases h1 : Int.land flags env.LIST_TYPE_ORDERED = 0
    · by_cases h2 : Int.land flags env.LIST_ITEM_PLAIN = 0
      · simp only [Op.apply, Deck.List, h1, h2, ne_eq, not_true_eq_false, ↓reduceIte,
          Buffer.Write]
        exact key text _ s.2 _ _ happ ⟨_, rfl⟩
      · simp only [Op.apply, Deck.List, h1, h2, ne_eq, not_true_eq_false, not_false_eq_true,
          ↓reduceIte, Buffer.Write]
        exact key text _ s.2 _ _ happ ⟨_, rfl⟩
    · simp only [Op.apply, Deck.List, h1, ne_eq, not_false_eq_true, ↓reduceIte, Buffer.Write]
      exact key text _ s.2 _ _ happ ⟨_, rfl⟩
  all_goals exact ⟨_, rfl⟩

theorem run_returns (env : Env) (ops : List Op) (s : Deck × Buffer)
    (ha : ∀ op ∈ ops, ∀ text, op.children = some text → AppendsOnly text) :
    ∃ s1, run env ops s = some s1 := by
  induction ops generalizing s with
  | nil => exact ⟨s, rfl⟩
  | cons op rest ih =>
    obtain ⟨s1, h1⟩ := Op.apply_returns env op s (ha op (List.mem_cons_self _ _))
    obtain ⟨s2, h2⟩ := ih s1 (fun o ho => ha o (List.mem_cons_of_mem _ ho))
    exact ⟨s2, by simp [run, h1, h2]⟩

theorem run_slidenumber (env : Env) (ops : List Op) (s s1 : Deck × Buffer)
    (hk : ∀ op ∈ ops, ∀ text, op.children = some text → KeepsState text)
    (h0 : 0 ≤ s.1.slidenumber) (hn : s.1.slidenumber + countHRule ops < 2 ^ 63)
    (h : run env ops s = some s1) :
    s1.1.slidenumber = s.1.slidenumber + countHRule ops := by
  induction ops generalizing s with
  | nil =>
    cases h
    simp [countHRule]
  | cons op rest ih =>
    unfold run at h
    cases hop : op.apply env s with
    | none => simp [hop] at h
    | some s2 =>
      rw [hop] at h
      have hs2 := Op.apply_slidenumber env op s s2 (hk op (List.mem_cons_self _ _)) hop
      have hc : countHRule (op :: rest) = countHRule rest + (if op.isHRule then 1 else 0) := by
        simp [countHRule, List.countP_cons]
      cases hr : op.isHRule
      · simp only [hr, Bool.false_eq_true, ↓reduceIte, add_zero] at hs2 hc
        rw [hc] at hn ⊢
        have := ih s2 (fun o ho => hk o (List.mem_cons_of_mem _ ho)) (by omega) (by omega) h
        omega
      · simp only [hr, ↓reduceIte] at hs2 hc
        rw [hc] at hn ⊢
        rw [wrapInt_succ _ (by omega) (by omega)] at hs2
        have := ih s2 (fun o ho => hk o (List.mem_cons_of_mem _ ho)) (by omega) (by omega) h
        omega

/-- C3 as stated fails at the largest `int`: there `slidenumber++` wraps, and
`HRule` takes the counter from `2^63 - 1` to `-2^63`. -/
theorem slide_counter_wraps :
    (Deck.HRule { DeckRenderer 0 with slidenumber := 2 ^ 63 - 1 } []).1.slidenumber = -2 ^ 63 ∧
    ¬ ∀ (d : Deck) (out : Buffer), (d.HRule out).1.slidenumber = d.slidenumber + 1 := by
  have h : (Deck.HRule { DeckRenderer 0 with slidenumber := 2 ^ 63 - 1 } []).1.slidenumber
      = -2 ^ 63 := by decide
  refine ⟨h, fun hall => ?_⟩
  have h2 := hall { DeckRenderer 0 with slidenumber := 2 ^ 63 - 1 } []
  rw [h] at h2
  norm_num at h2

/-- C3, amended. Slide counter: `HRule` increases `slidenumber` by exactly 1 in
every state whose counter is an `int` below the largest one; every other call
leaves `slidenumber` unchanged when its children callback does not change the
state; hence a run from the state `DeckRenderer` builds, with fewer than `2^63`
calls of `HRule`, ends with `slidenumber` equal to the number of `HRule` calls,
and the run does return when the callbacks only append to the sink. -/
theorem slide_counter (env : Env) :
    (∀ (d : Deck) (out : Buffer), -2 ^ 63 ≤ d.slidenumber → d.slidenumber < 2 ^ 63 - 1 →
      (d.HRule out).1.slidenumber = d.slidenumber + 1) ∧
    (∀ (op : Op) (s s1 : Deck × Buffer), op.isHRule = false →
      (∀ text, op.children = some text → KeepsState text) →
      op.apply env s = some s1 → s1.1.slidenumber = s.1.slidenumber) ∧
    (∀ (ops : List Op) (flags : Int) (out : Buffer),
      (∀ op ∈ ops, ∀ text, op.children = some text → KeepsState text) →
      (countHRule ops : Int) < 2 ^ 63 →
      (∀ s1, run env ops (DeckRenderer flags, out) = some s1 →
        s1.1.slidenumber = countHRule ops) ∧
      ((∀ op ∈ ops, ∀ text, op.children = some text → AppendsOnly text) →
        ∃ s1, run env ops (DeckRenderer flags, out) = some s1)) := by
  refine ⟨fun d out h0 h1 => ?_, fun op s s1 hop hk h => ?_, fun ops flags out hk hn => ⟨?_, ?_⟩⟩
  · exact wrapInt_succ _ h0 h1
  · have := Op.apply_slidenumber env op s s1 hk h
    simpa [hop] using this
  · intro s1 h
    have := run_slidenumber env ops (DeckRenderer flags, out) s1 hk (by simp [DeckRenderer])
      (by simpa [DeckRenderer] using hn) h
    simpa [DeckRenderer] using this
  · exact fun ha => run_returns env ops _ ha

theorem twoSlides_keepsState :
    ∀ op ∈ twoSlides, ∀ text, op.children = some text → KeepsState text := by
  intro op hop text ht
  simp only [twoSlides, List.mem_cons, List.mem_singleton, List.not_mem_nil, or_false] at hop
  rcases hop with rfl | rfl | rfl | rfl | rfl | rfl <;> simp only [Op.children] at ht <;>
    first
    | (cases ht; intro d o; rfl)
    | cases ht

theorem twoSlides_appendsOnly :
    ∀ op ∈ twoSlides, ∀ text, op.children = some text → AppendsOnly text := by
  intro op hop text ht
  simp only [twoSlides, List.mem_cons, List.mem_singleton, List.not_mem_nil, or_false] at hop
  rcases hop with rfl | rfl | rfl | rfl | rfl | rfl <;> simp only [Op.children] at ht <;>
    first
    | (cases ht; intro d o; exact ⟨_, rfl⟩)
    | cases ht

theorem slide_counter_witness :
    (countHRule twoSlides : Int) < 2 ^ 63 ∧
    (∀ s1, run stdEnv twoSlides (DeckRenderer 0, []) = some s1 → s1.1.slidenumber = 1) ∧
    ∃ s1, run stdEnv twoSlides (DeckRenderer 0, []) = some s1 :=
  have hn : (countHRule twoSlides : Int) < 2 ^ 63 := by decide
  ⟨hn, ((slide_counter stdEnv).2.2 twoSlides 0 [] twoSlides_keepsState hn).1,
    ((slide_counter stdEnv).2.2 twoSlides 0 [] twoSlides_keepsState hn).2 twoSlides_appendsOnly⟩

theorem Split_ne_nil (s : Bytes) (sep : Byte) : Split s sep ≠ [] := by
  cases s with
  | nil => simp [Split]
  | cons b rest =>
    unfold Split
    split
    · simp
    · split <;> simp

/-- The pieces of `Split`, joined with the separator, are the input. -/
theorem Split_join (s : Bytes) (sep : Byte) : [sep].intercalate (Split s sep) = s := by
  induction s with
  | nil => simp [Split, List.intercalate]
  | cons b rest ih =>
    unfold Split
    split
    · next hb =>
      cases hs : Split rest sep with
      | nil => exact absurd hs (Split_ne_nil rest sep)
      | cons t ts =>
        rw [hs] at ih
        simp only [List.intercalate, List.intersperse, List.flatten] at ih ⊢
        simp [hb, ih]
    · cases hs : Split rest sep with
      | nil => exact absurd hs (Split_ne_nil rest sep)
      | cons t ts =>
        rw [hs] at ih
        cases ts with
        | nil =>
          simp only [List.intercalate, List.intersperse, List.flatten] at ih ⊢
          simpa using ih
        | cons u us =>
          simp only [List.intercalate, List.intersperse, List.flatten] at ih ⊢
          simpa using ih

/-- There is one piece more than there are separators. -/
theorem Split_length (s : Bytes) (sep : Byte) : (Split s sep).length = s.count sep + 1 := by
  induction s with
  | nil => simp [Split]
  | cons b rest ih =>
    unfold Split
    split
    · next hb => simp [hb, ih]
    · next hb =>
      cases hs : Split rest sep with
      | nil => exact absurd hs (Split_ne_nil rest sep)
      | cons t ts =>
        rw [hs] at ih
        have : (b == sep) = false := by simpa using hb
        simp [List.count_cons, this] at ih ⊢
        exact ih

/-- Every byte of a piece is a byte of the input, and no piece holds the
separator. -/
theorem Split_mem (s : Bytes) (sep : Byte) :
    ∀ t ∈ Split s sep, ∀ b ∈ t, b ∈ s ∧ b ≠ sep := by
  induction s with
  | nil => simp [Split]
  | cons a rest ih =>
    unfold Split
    split
    · next ha =>
      intro t ht b hb
      rcases List.mem_cons.1 ht with h | h
      · subst h; simp at hb
      · exact ⟨List.mem_cons_of_mem _ (ih t h b hb).1, (ih t h b hb).2⟩
    · next ha =>
      cases hs : Split rest sep with
      | nil => exact absurd hs (Split_ne_nil rest sep)
      | cons u us =>
        rw [hs] at ih
        intro t ht b hb
        rcases List.mem_cons.1 ht with h | h
        · subst h
          rcases List.mem_cons.1 hb with h2 | h2
          · subst h2; exact ⟨List.mem_cons_self _ _, ha⟩
          · exact ⟨List.mem_cons_of_mem _ (ih u (List.mem_cons_self _ _) b h2).1,
              (ih u (List.mem_cons_self _ _) b h2).2⟩
        · exact ⟨List.mem_cons_of_mem _ (ih t (List.mem_cons_of_mem _ h) b hb).1,
            (ih t (List.mem_cons_of_mem _ h) b hb).2⟩

/-- The bytes `Image` writes, in the order of the source. -/
theorem Deck.Image_eq (env : Env) (options : Deck) (out : Buffer) (link title alt : Bytes) :
    options.Image env out link title alt =
      (options, out ++ (bytes "<image name=\"" ++ env.attrEscape link
        ++ (if (Split alt 44).length = 4 then
            bytes "\" xp=\"" ++ (Split alt 44).getD 0 [] ++ bytes "\" yp=\""
              ++ (Split alt 44).getD 1 [] ++ bytes "\" width=\"" ++ (Split alt 44).getD 2 []
              ++ bytes "\" height=\"" ++ (Split alt 44).getD 3 [] ++ bytes "\""
          else bytes " xp=\"50\" yp=\"50\" width=\"100\" height=\"100\"")
        ++ (if title = [] then [] else bytes " caption=\"" ++ env.attrEscape title ++ bytes "\"")
        ++ bytes " />\n")) := by
  unfold Deck.Image
  by_cases h4 : (Split alt 44).length = 4 <;> by_cases ht : title = [] <;>
    simp [h4, ht, Buffer.Write, List.length_pos]

/-- C4. Image with four alt tokens: when the split of `alt` on `,` is the four
tokens `t0`, `t1`, `t2`, `t3`, `Image` appends `<image name="`, the escaped
link, `" xp="t0" yp="t1" width="t2" height="t3"` with the tokens byte for byte
as they are in `alt`, the caption when the title is not empty, and ` />\n`; the
renderer state is unchanged. -/
theorem image_four_tokens (env : Env) (options : Deck) (out : Buffer)
    (link title alt t0 t1 t2 t3 : Bytes) (h : Split alt 44 = [t0, t1, t2, t3]) :
    options.Image env out link title alt =
      (options, out ++ (bytes "<image name=\"" ++ env.attrEscape link
        ++ (bytes "\" xp=\"" ++ t0 ++ bytes "\" yp=\"" ++ t1 ++ bytes "\" width=\"" ++ t2
          ++ bytes "\" height=\"" ++ t3 ++ bytes "\"")
        ++ (if title = [] then [] else bytes " caption=\"" ++ env.attrEscape title ++ bytes "\"")
        ++ bytes " />\n")) := by
  rw [Deck.Image_eq, h]
  simp

set_option maxRecDepth 100000 in
theorem image_four_tokens_witness :
    Split (bytes "10,20,30,40") 44 = [bytes "10", bytes "20", bytes "30", bytes "40"] ∧
    (DeckRenderer 0).Image stdEnv [] (bytes "a.png") [] (bytes "10,20,30,40") =
      (DeckRenderer 0,
        bytes "<image name=\"a.png\" xp=\"10\" yp=\"20\" width=\"30\" height=\"40\" />\n") :=
  ⟨by decide,
    (image_four_tokens stdEnv (DeckRenderer 0) [] (bytes "a.png") [] (bytes "10,20,30,40")
      (bytes "10") (bytes "20") (bytes "30") (bytes "40") (by decide)).trans (by decide)⟩

/-- What `Image` writes when the alt text does not split into four tokens:
the default placement follows the escaped link with no quote in between. -/
theorem Deck.Image_not_four (env : Env) (options : Deck) (out : Buffer)
    (link title alt : Bytes) (h : (Split alt 44).length ≠ 4) :
    options.Image env out link title alt =
      (options, out ++ (bytes "<image name=\"" ++ env.attrEscape link
        ++ bytes " xp=\"50\" yp=\"50\" width=\"100\" height=\"100\""
        ++ (if title = [] then [] else bytes " caption=\"" ++ env.attrEscape title ++ bytes "\"")
        ++ bytes " />\n")) := by
  rw [Deck.Image_eq]
  simp [h]

set_option maxRecDepth 100000 in
/-- C5 (code bug). With an alt text of two tokens `Image` writes the default
placement without the quote that closes the name attribute: the element it
appends is not the one the four-token branch would write with 50, 50, 100, 100
for the tokens. -/
theorem image_default_placement_unclosed :
    ((DeckRenderer 0).Image stdEnv [] (bytes "a.png") [] (bytes "1,2")).2 =
      bytes "<image name=\"a.png xp=\"50\" yp=\"50\" width=\"100\" height=\"100\" />\n" ∧
    ((DeckRenderer 0).Image stdEnv [] (bytes "a.png") [] (bytes "1,2")).2 ≠
      bytes "<image name=\"a.png\" xp=\"50\" yp=\"50\" width=\"100\" height=\"100\" />\n" ∧
    ((DeckRenderer 0).Image stdEnv [] (bytes "a.png") [] (bytes "50,50,100,100")).2 =
      bytes "<image name=\"a.png\" xp=\"50\" yp=\"50\" width=\"100\" height=\"100\" />\n" := by
  decide

theorem attrEscape_safe (src : Bytes) : ∀ b ∈ attrEscape src, b ≠ 34 ∧ b ≠ 60 ∧ b ≠ 62 := by
  intro b hb
  simp only [attrEscape, List.mem_flatMap] at hb
  obtain ⟨a, -, hab⟩ := hb
  unfold attrEscapeByte at hab
  split_ifs at hab with h1 h2 h3 h4
  · revert b; decide
  · revert b; decide
  · revert b; decide
  · revert b; decide
  · simp only [List.mem_singleton] at hab
    subst hab
    exact ⟨h1, h3, h4⟩

theorem prefix_split (q : Byte) (X Y U V : Bytes) (hX : q ∉ X) (hY : q ∉ Y)
    (h : X ++ q :: U <+: Y ++ q :: V) : X = Y ∧ U <+: V := by
  induction X generalizing Y with
  | nil =>
    cases Y with
    | nil => exact ⟨rfl, (List.cons_prefix_cons.1 h).2⟩
    | cons y Y =>
      have := (List.cons_prefix_cons.1 h).1
      exact absurd (this ▸ List.mem_cons_self _ _) hY
  | cons x X ih =>
    cases Y with
    | nil =>
      have := (List.cons_prefix_cons.1 h).1
      exact absurd (this ▸ List.mem_cons_self _ _) hX
    | cons y Y =>
      obtain ⟨hxy, hrest⟩ := List.cons_prefix_cons.1 h
      obtain ⟨h1, h2⟩ := ih Y (fun hm => hX (List.mem_cons_of_mem _ hm))
        (fun hm => hY (List.mem_cons_of_mem _ hm)) hrest
      exact ⟨by rw [hxy, h1], h2⟩

/-- An element that ends in a quote-free `height` value does not end in a
caption attribute. -/
theorem no_caption_suffix (pre t E : Bytes) (ht : (34 : Byte) ∉ t) (hE : (34 : Byte) ∉ E) :
    ¬ (bytes " caption=\"" ++ E ++ bytes "\" />\n") <:+
      (pre ++ bytes " height=\"" ++ t ++ bytes "\"" ++ bytes " />\n") := by
  intro h
  rw [← List.reverse_prefix] at h
  have e1 : (bytes "\" />\n").reverse = [10, 62, 47, 32, 34] := by decide
  have e2 : (bytes " caption=\"").reverse = 34 :: 61 :: 110 :: bytes "oitpac " := by decide
  have e3 : (bytes " />\n").reverse = [10, 62, 47, 32] := by decide
  have e4 : (bytes "\"").reverse = [34] := by decide
  have e5 : (bytes " height=\"").reverse = 34 :: 61 :: 116 :: bytes "hgieh " := by decide
  simp only [List.reverse_append, e1, e2, e3, e4, e5, List.append_assoc, List.cons_append,
    List.nil_append, List.cons_prefix_cons, true_and] at h
  have := (prefix_split 34 E.reverse t.reverse _ _ (by simpa using hE) (by simpa using ht) h).2
  simp only [List.cons_prefix_cons] at this
  exact absurd this.2.1 (by decide)

theorem getD_quote_free (l : List Bytes) (i : Nat) (h : ∀ t ∈ l, (34 : Byte) ∉ t) :
    (34 : Byte) ∉ l.getD i [] := by
  induction l generalizing i with
  | nil => simp
  | cons a l ih =>
    cases i with
    | zero => simpa using h a (List.mem_cons_self _ _)
    | succ i => simpa using ih i (fun t ht => h t (List.mem_cons_of_mem _ ht))

set_option maxRecDepth 100000 in
/-- C6 as stated fails: the alt tokens are copied unescaped, so an alt text
can carry a caption attribute of its own. With an empty title and the alt text
`1,2,3,4" caption="` the appended element ends in ` caption="" />`, and with
`1,2,3,4" caption="x` it holds the attribute `caption="x"`. -/
theorem image_caption_from_alt :
    ((DeckRenderer 0).Image stdEnv [] (bytes "a.png") [] (bytes "1,2,3,4\" caption=\"")).2 =
      bytes "<image name=\"a.png\" xp=\"1\" yp=\"2\" width=\"3\" height=\"4\" caption=\"\" />\n" ∧
    (bytes " caption=\"" ++ stdEnv.attrEscape [] ++ bytes "\" />\n") <:+
      ((DeckRenderer 0).Image stdEnv [] (bytes "a.png") [] (bytes "1,2,3,4\" caption=\"")).2 ∧
    ((DeckRenderer 0).Image stdEnv [] (bytes "a.png") [] (bytes "1,2,3,4\" caption=\"x")).2 =
      bytes "<image name=\"a.png\" xp=\"1\" yp=\"2\" width=\"3\" height=\"4\" caption=\"x\" />\n" ∧
    hasAttr (bytes "caption")
      ((DeckRenderer 0).Image stdEnv [] (bytes "a.png") [] (bytes "1,2,3,4\" caption=\"x")).2 = true ∧
    ¬ (∀ (env : Env) (link title alt : Bytes),
        ((bytes " caption=\"" ++ env.attrEscape title ++ bytes "\" />\n") <:+
          ((DeckRenderer 0).Image env [] link title alt).2 ↔ title ≠ [])) := by
  have h1 : ((DeckRenderer 0).Image stdEnv [] (bytes "a.png") [] (bytes "1,2,3,4\" caption=\"")).2 =
      bytes "<image name=\"a.png\" xp=\"1\" yp=\"2\" width=\"3\" height=\"4\" caption=\"\" />\n" := by
    decide
  have h2 : (bytes " caption=\"" ++ stdEnv.attrEscape [] ++ bytes "\" />\n") <:+
      ((DeckRenderer 0).Image stdEnv [] (bytes "a.png") [] (bytes "1,2,3,4\" caption=\"")).2 := by
    rw [h1]
    exact ⟨bytes "<image name=\"a.png\" xp=\"1\" yp=\"2\" width=\"3\" height=\"4\"", by decide⟩
  refine ⟨h1, h2, by decide, by decide, fun hall => ?_⟩
  exact ((hall stdEnv (bytes "a.png") [] (bytes "1,2,3,4\" caption=\"")).1 h2) rfl

/-- C7. Empty document: from the state `DeckRenderer` builds and an empty sink,
`DocumentHeader` followed at once by `DocumentFooter` leaves the sink at
`<deck>\n<slide>\n</slide>\n</deck>\n` and the state as it was, with
`slidenumber` at its initial value 0. -/
theorem empty_document (env : Env) (flags : Int) :
    run env [.DocumentHeader, .DocumentFooter] (DeckRenderer flags, []) =
      some (DeckRenderer flags, bytes "<deck>\n<slide>\n</slide>\n</deck>\n") ∧
    ((DeckRenderer flags).DocumentHeader []).1.DocumentFooter
        ((DeckRenderer flags).DocumentHeader []).2 =
      (DeckRenderer flags, bytes "<deck>\n<slide>\n</slide>\n</deck>\n") ∧
    (DeckRenderer flags).slidenumber = 0 := by
  have h : bytes "<deck>\n<slide>\n" ++ bytes "</slide>\n</deck>\n" =
      bytes "<deck>\n<slide>\n</slide>\n</deck>\n" := by decide
  refine ⟨?_, ?_, rfl⟩
  · simp only [run, Op.apply, Deck.DocumentHeader, Deck.DocumentFooter, Buffer.Write,
      List.nil_append, h]
  · simp only [Deck.DocumentHeader, Deck.DocumentFooter, Buffer.Write, List.nil_append, h]

set_option maxRecDepth 100000 in
theorem twoSlides_run_std :
    run stdEnv twoSlides (DeckRenderer 0, []) =
      some ({ DeckRenderer 0 with slidenumber := 1, yp := Float64.ofNat 30, sp := Float64.ofNat 3 },
        twoSlidesSink) := by
  decide

theorem twoSlides_run_env (env : Env) (flags : Int) :
    run env twoSlides (DeckRenderer flags, []) = run stdEnv twoSlides (DeckRenderer 0, []) := by
  simp only [twoSlides, run, Op.apply, DeckRenderer]

set_option maxRecDepth 1000000 in
/-- The sink the two-slide document ends with. -/
theorem twoSlidesSink_props :
    countOcc (bytes "<slide>") twoSlidesSink = 2 ∧
    countOcc (bytes "</slide>") twoSlidesSink = 2 ∧
    countOcc (bytes "<text ") twoSlidesSink = 3 ∧
    countOcc (bytes "</text>") twoSlidesSink = 3 ∧
    bytes "<text xp=\"10.00\" yp=\"90.00\" sp=\"4.00\" type=\"\">Title</text>" <:+: twoSlidesSink ∧
    bytes "<text xp=\"10.00\" yp=\"40.00\" sp=\"3.00\" type=\"\">Next</text>" <:+: twoSlidesSink ∧
    wellNested twoSlidesSink = true := by
  decide

/-- C8. Two-slide scenario: from the state `DeckRenderer` builds and an empty
sink, the calls `DocumentHeader`, `Header` level 1 writing "Title", `Paragraph`
writing "Body", `HRule`, `Header` level 2 writing "Next", `DocumentFooter` return
with a sink that (a) holds exactly two `<slide>` open tags and two `</slide>`
close tags, (b) holds the level-1 header with `xp="10.00" yp="90.00" sp="4.00"`
and the level-2 header with `xp="10.00" yp="40.00" sp="3.00"`, and (c) has every
open tag matched by its close tag in properly nested order. -/
theorem two_slide_scenario (env : Env) (flags : Int) :
    ∃ d sink, run env twoSlides (DeckRenderer flags, []) = some (d, sink) ∧
      sink = twoSlidesSink ∧ d.slidenumber = 1 ∧
      countOcc (bytes "<slide>") sink = 2 ∧
      countOcc (bytes "</slide>") sink = 2 ∧
      bytes "<text xp=\"10.00\" yp=\"90.00\" sp=\"4.00\" type=\"\">Title</text>" <:+: sink ∧
      bytes "<text xp=\"10.00\" yp=\"40.00\" sp=\"3.00\" type=\"\">Next</text>" <:+: sink ∧
      countOcc (bytes "<text ") sink = 3 ∧
      countOcc (bytes "</text>") sink = 3 ∧
      wellNested sink = true := by
  have h := twoSlidesSink_props
  exact ⟨_, _, (twoSlides_run_env env flags).trans twoSlides_run_std, rfl, rfl,
    h.1, h.2.1, h.2.2.2.2.1, h.2.2.2.2.2.1, h.2.2.1, h.2.2.2.1, h.2.2.2.2.2.2⟩

theorem countOcc_cons_ne (p c : Byte) (pat rest : Bytes) (h : c ≠ p) :
    countOcc (p :: pat) (c :: rest) = countOcc (p :: pat) rest := by
  have : (p == c) = false := by simpa using fun h2 => h h2.symm
  simp [countOcc, List.isPrefixOf, this]

theorem countOcc_amp_ne (p q c : Byte) (pat rest : Bytes) (h : c ≠ q) :
    countOcc (p :: q :: pat) (p :: c :: rest) = countOcc (p :: q :: pat) (c :: rest) := by
  have : (q == c) = false := by simpa using fun h2 => h h2.symm
  rw [countOcc]
  simp [List.isPrefixOf, this]

theorem countOcc_attrEscape (text : Bytes) :
    countOcc (bytes "&lt;") (attrEscape text) = text.count 60 := by
  have hp : bytes "&lt;" = [38, 108, 116, 59] := by decide
  have hq : bytes "&quot;" = [38, 113, 117, 111, 116, 59] := by decide
  have ha : bytes "&amp;" = [38, 97, 109, 112, 59] := by decide
  have hg : bytes "&gt;" = [38, 103, 116, 59] := by decide
  rw [hp]
  induction text with
  | nil => simp [attrEscape, countOcc]
  | cons b rest ih =>
    have hcons : attrEscape (b :: rest) = attrEscapeByte b ++ attrEscape rest := by
      simp [attrEscape]
    rw [hcons]
    by_cases h3 : b = 60
    · subst h3
      have e : attrEscapeByte 60 = [38, 108, 116, 59] := by decide
      rw [e, List.count_cons_self, ← ih]
      simp only [List.cons_append, List.nil_append]
      rw [countOcc]
      rw [countOcc_cons_ne _ _ _ _ (by decide), countOcc_cons_ne _ _ _ _ (by decide),
        countOcc_cons_ne _ _ _ _ (by decide)]
      simp [List.isPrefixOf]
      omega
    · rw [List.count_cons_of_ne (fun h => h3 h.symm), ← ih]
      by_cases h1 : b = 34
      · subst h1
        have e : attrEscapeByte 34 = [38, 113, 117, 111, 116, 59] := by decide
        rw [e]
        simp only [List.cons_append, List.nil_append]
        rw [countOcc_amp_ne _ _ _ _ _ (by decide), countOcc_cons_ne _ _ _ _ (by decide),
          countOcc_cons_ne _ _ _ _ (by decide), countOcc_cons_ne _ _ _ _ (by decide),
          countOcc_cons_ne _ _ _ _ (by decide), countOcc_cons_ne _ _ _ _ (by decide)]
      · by_cases h2 : b = 38
        · subst h2
          have e : attrEscapeByte 38 = [38, 97, 109, 112, 59] := by decide
          rw [e]
          simp only [List.cons_append, List.nil_append]
          rw [countOcc_amp_ne _ _ _ _ _ (by decide), countOcc_cons_ne _ _ _ _ (by decide),
            countOcc_cons_ne _ _ _ _ (by decide), countOcc_cons_ne _ _ _ _ (by decide),
            countOcc_cons_ne _ _ _ _ (by decide)]
        · by_cases h4 : b = 62
          · subst h4
            have e : attrEscapeByte 62 = [38, 103, 116, 59] := by decide
            rw [e]
            simp only [List.cons_append, List.nil_append]
            rw [countOcc_amp_ne _ _ _ _ _ (by decide), countOcc_cons_ne _ _ _ _ (by decide),
              countOcc_cons_ne _ _ _ _ (by decide), countOcc_cons_ne _ _ _ _ (by decide)]
          · have e : attrEscapeByte b = [b] := by simp [attrEscapeByte, h1, h2, h3, h4]
            rw [e]
            simp only [List.cons_append, List.nil_append]
            rw [countOcc_cons_ne _ _ _ _ h2]

theorem attrEscape_append (a b : Bytes) : attrEscape (a ++ b) = attrEscape a ++ attrEscape b := by
  simp [attrEscape, List.flatMap_append]

/-- C9. Escaping asymmetry: `ListItem` appends `<li>`, the text byte for byte,
and `</li>\n`, and changes no state; `NormalText` appends what the escaping
collaborator writes for the text, and that collaborator (as the spec describes
it) writes `&lt;` for every `<` of the text and never a raw `<`. -/
theorem escaping_asymmetry (options : Deck) (out : Buffer) (text : Bytes) (flags : Int) :
    options.ListItem out text flags = (options, out ++ bytes "<li>" ++ text ++ bytes "</li>\n") ∧
    (∀ env : Env, options.NormalText env out text = (options, out ++ env.attrEscape text)) ∧
    options.NormalText stdEnv out text = (options, out ++ attrEscape text) ∧
    (60 : Byte) ∉ attrEscape text ∧
    (∀ a b : Bytes, attrEscape (a ++ 60 :: b) = attrEscape a ++ bytes "&lt;" ++ attrEscape b) ∧
    countOcc (bytes "&lt;") (attrEscape text) = text.count 60 := by
  refine ⟨rfl, fun _ => rfl, rfl, fun h => (attrEscape_safe text _ h).2.1 rfl, ?_, ?_⟩
  · intro a b
    rw [attrEscape_append]
    have : attrEscape (60 :: b) = bytes "&lt;" ++ attrEscape b := by
      have h60 : attrEscapeByte 60 = bytes "&lt;" := by decide
      simp [attrEscape, h60]
    rw [this, List.append_assoc]
  · exact countOcc_attrEscape text

/-- What `Header` does at a level other than 1 and 2 when the callback writes
`c` and reports true: no open tag is written, the close tag is. -/
theorem Deck.Header_other_level (options : Deck) (out : Buffer) (c : Bytes) (level : Int)
    (h1 : level ≠ 1) (h2 : level ≠ 2) :
    options.Header out (writes c true) level =
      some ({ options with xp := Float64.ofNat 10, yp := options.yp.sub (Float64.ofNat 10) },
        out ++ c ++ bytes "</text>\n") := by
  simp [Deck.Header, h1, h2, writes, Buffer.Write]

set_option maxRecDepth 100000 in
/-- C10 (code bug). At level 3 and at level 0, with a callback that writes `x`
and reports true, `Header` appends `x</text>\n`: the close tag is written and
no open tag is, so the markup is not properly nested; at level 1 the same call
writes the open tag too. -/
theorem header_other_level_unmatched_close :
    (DeckRenderer 0).Header [] (writes (bytes "x") true) 3 =
      some ({ DeckRenderer 0 with yp := Float64.ofNat 80 }, bytes "x</text>\n") ∧
    (DeckRenderer 0).Header [] (writes (bytes "x") true) 0 =
      some ({ DeckRenderer 0 with yp := Float64.ofNat 80 }, bytes "x</text>\n") ∧
    countOcc (bytes "<text") (bytes "x</text>\n") = 0 ∧
    countOcc (bytes "</text>") (bytes "x</text>\n") = 1 ∧
    wellNested (bytes "x</text>\n") = false ∧
    (DeckRenderer 0).Header [] (writes (bytes "x") true) 1 =
      some ({ DeckRenderer 0 with yp := Float64.ofNat 80, sp := Float64.ofNat 4 },
        bytes "<text xp=\"10.00\" yp=\"90.00\" sp=\"4.00\" type=\"\">x</text>\n") ∧
    wellNested (bytes "<text xp=\"10.00\" yp=\"90.00\" sp=\"4.00\" type=\"\">x</text>\n") = true := by
  decide

theorem Float64.fmt2_consts :
    (Float64.ofNat 10).fmt2 = bytes "10.00" ∧ (Float64.ofNat 90).fmt2 = bytes "90.00" ∧
    (Float64.ofNat 40).fmt2 = bytes "40.00" ∧ (Float64.ofNat 4).fmt2 = bytes "4.00" ∧
    (Float64.ofNat 3).fmt2 = bytes "3.00" ∧ (Float64.ofDecimal 16 10).fmt2 = bytes "1.60" := by
  decide

theorem Float64.sub_consts :
    (Float64.ofNat 90).sub (Float64.ofNat 10) = Float64.ofNat 80 ∧
    (Float64.ofNat 40).sub (Float64.ofNat 10) = Float64.ofNat 30 := by
  decide

/-- C14. Header levels 1 and 2 are position-resetting: whatever the cursor was,
with a callback that appends `c`, reports true and leaves the renderer alone,
`Header` level 1 appends `<text xp="10.00" yp="90.00" sp="4.00" type="">`, `c`
and `</text>\n` and ends in xp = 10, yp = 80, sp = 4, and level 2 appends
`<text xp="10.00" yp="40.00" sp="3.00" type="">`, `c` and `</text>\n` and ends in
xp = 10, yp = 30, sp = 3; the other fields are unchanged. -/
theorem header_levels_reset_position (options : Deck) (out : Buffer) (c : Bytes)
    (text : Children) (htext : ∀ d o, text d o = ((d, o ++ c), true)) :
    options.Header out text 1 =
      some ({ options with xp := Float64.ofNat 10, yp := Float64.ofNat 80, sp := Float64.ofNat 4 },
        out ++ bytes "<text xp=\"10.00\" yp=\"90.00\" sp=\"4.00\" type=\"\">" ++ c
          ++ bytes "</text>\n") ∧
    options.Header out text 2 =
      some ({ options with xp := Float64.ofNat 10, yp := Float64.ofNat 30, sp := Float64.ofNat 3 },
        out ++ bytes "<text xp=\"10.00\" yp=\"40.00\" sp=\"3.00\" type=\"\">" ++ c
          ++ bytes "</text>\n") := by
  have h1 : bytes "<text xp=\"10.00\" yp=\"90.00\" sp=\"4.00\" type=\"\">" =
      bytes "<text xp=\"" ++ bytes "10.00" ++ bytes "\" yp=\"" ++ bytes "90.00" ++ bytes "\" sp=\""
        ++ bytes "4.00" ++ bytes "\" type=\"" ++ bytes "" ++ bytes "\">" := by decide
  have h2 : bytes "<text xp=\"10.00\" yp=\"40.00\" sp=\"3.00\" type=\"\">" =
      bytes "<text xp=\"" ++ bytes "10.00" ++ bytes "\" yp=\"" ++ bytes "40.00" ++ bytes "\" sp=\""
        ++ bytes "3.00" ++ bytes "\" type=\"" ++ bytes "" ++ bytes "\">" := by decide
  obtain ⟨f10, f90, f40, f4, f3, -⟩ := Float64.fmt2_consts
  obtain ⟨s90, s40⟩ := Float64.sub_consts
  constructor
  · simp only [Deck.Header, ↓reduceIte, Deck.renderText, Buffer.Write, htext, f10, f90, f4, s90,
      h1, Bool.not_true, Bool.false_eq_true, List.append_assoc]
  · have h21 : ¬ ((2 : Int) = 1) := by decide
    simp only [Deck.Header, h21, ↓reduceIte, Deck.renderText, Buffer.Write, htext, f10, f40, f3,
      s40, h2, Bool.not_true, Bool.false_eq_true, List.append_assoc]

theorem header_levels_reset_position_witness :
    (∀ d o, writes (bytes "Title") true d o = ((d, o ++ bytes "Title"), true)) ∧
    Deck.Header { DeckRenderer 0 with xp := Float64.ofNat 25, yp := Float64.ofNat 30 }
        (bytes "<slide>\n") (writes (bytes "Title") true) 1 =
      some ({ DeckRenderer 0 with yp := Float64.ofNat 80, sp := Float64.ofNat 4 },
        bytes "<slide>\n" ++ bytes "<text xp=\"10.00\" yp=\"90.00\" sp=\"4.00\" type=\"\">"
          ++ bytes "Title" ++ bytes "</text>\n") :=
  ⟨fun _ _ => rfl,
    (header_levels_reset_position
      { DeckRenderer 0 with xp := Float64.ofNat 25, yp := Float64.ofNat 30 }
      (bytes "<slide>\n") (bytes "Title") (writes (bytes "Title") true) (fun _ _ => rfl)).1⟩

/-- C16. Slide break resets the cursor: in every state `HRule` appends exactly
`</slide>\n<slide>\n` and leaves xp = 10, yp = 90, sp = 2, the values
`DeckRenderer` builds, so the cursor after `HRule` is the cursor of a fresh
renderer; `cw` and `ch` are unchanged. -/
theorem hrule_resets_cursor (options : Deck) (out : Buffer) (flags : Int) :
    (options.HRule out).2 = out ++ bytes "</slide>\n<slide>\n" ∧
    (options.HRule out).1.xp = Float64.ofNat 10 ∧
    (options.HRule out).1.yp = Float64.ofNat 90 ∧
    (options.HRule out).1.sp = Float64.ofNat 2 ∧
    (options.HRule out).1.xp = (DeckRenderer flags).xp ∧
    (options.HRule out).1.yp = (DeckRenderer flags).yp ∧
    (options.HRule out).1.sp = (DeckRenderer flags).sp ∧
    (options.HRule out).1.cw = options.cw ∧
    (options.HRule out).1.ch = options.ch :=
  ⟨rfl, rfl, rfl, rfl, rfl, rfl, rfl, rfl, rfl⟩

/-- C18. Unsupported kinds are no-ops: in every state, for every sink and all
arguments, each of `BlockHtml`, `Table`, `TableRow`, `TableCell`, `Footnotes`,
`FootnoteItem`, `FootnoteRef`, `AutoLink`, `CodeSpan`, `Emphasis`,
`DoubleEmphasis`, `TripleEmphasis`, `StrikeThrough`, `LineBreak`, `Link` and
`RawHtmlTag` returns the renderer state and the sink as they were; `Footnotes`
does so whatever its children callback is, which it never invokes. -/
theorem unsupported_kinds_are_noops (options : Deck) (out : Buffer)
    (a b c : Bytes) (n : Int) (columnData : Ints) (text : Children) :
    options.BlockHtml out a = (options, out) ∧
    options.Table out a b columnData = (options, out) ∧
    options.TableRow out a = (options, out) ∧
    options.TableCell out a n = (options, out) ∧
    options.Footnotes out text = (options, out) ∧
    options.FootnoteItem out a b n = (options, out) ∧
    options.FootnoteRef out a n = (options, out) ∧
    options.AutoLink out a n = (options, out) ∧
    options.CodeSpan out a = (options, out) ∧
    options.Emphasis out a = (options, out) ∧
    options.DoubleEmphasis out a = (options, out) ∧
    options.TripleEmphasis out a = (options, out) ∧
    options.StrikeThrough out a = (options, out) ∧
    options.LineBreak out = (options, out) ∧
    options.Link out a b c = (options, out) ∧
    options.RawHtmlTag out a = (options, out) :=
  ⟨rfl, rfl, rfl, rfl, rfl, rfl, rfl, rfl, rfl, rfl, rfl, rfl, rfl, rfl, rfl, rfl⟩

/-- What a container call returns when the callback only appends, leaves the
renderer alone and reports false: the state it had when the callback was
called, and the sink cut back to the mark. -/
theorem rollback_state (text : Children) (happ : AppendsOnly text) (hkeep : KeepsState text)
    (hfalse : Reports text false) (d : Deck) (out w : Buffer) (k : Option (Deck × Buffer)) :
    (if !(text d (out ++ w)).2 then
        ((text d (out ++ w)).1.2.Truncate out.Len).map fun o => ((text d (out ++ w)).1.1, o)
      else k) = some (d, out) := by
  obtain ⟨c, hc⟩ := happ d (out ++ w)
  rw [hfalse d (out ++ w), hc, hkeep d (out ++ w), List.append_assoc, Buffer.truncate_append]
  simp

/-- C20. Rollback restores the sink but not the cursor: when the callback only
appends, leaves the renderer alone and reports false, `Header` level 1 returns
the sink as it was and the state with xp = 10, yp = 90, sp = 4 (the step
`yp -= 10` is skipped), level 2 with xp = 10, yp = 40, sp = 3, and `Paragraph`
and `List` return the sink as it was and the state with sp = 2. -/
theorem rollback_keeps_cursor_changes (env : Env) (options : Deck) (out : Buffer)
    (text : Children) (happ : AppendsOnly text) (hkeep : KeepsState text)
    (hfalse : Reports text false) :
    options.Header out text 1 =
      some ({ options with xp := Float64.ofNat 10, yp := Float64.ofNat 90, sp := Float64.ofNat 4 },
        out) ∧
    options.Header out text 2 =
      some ({ options with xp := Float64.ofNat 10, yp := Float64.ofNat 40, sp := Float64.ofNat 3 },
        out) ∧
    options.Paragraph out text = some ({ options with sp := Float64.ofNat 2 }, out) ∧
    (∀ flags : Int, options.List env out text flags =
      some ({ options with sp := Float64.ofNat 2 }, out)) := by
  refine ⟨?_, ?_, ?_, fun flags => ?_⟩
  · simp only [Deck.Header, ↓reduceIte, Buffer.Write]
    exact rollback_state text happ hkeep hfalse _ out _ _
  · have h21 : ¬ ((2 : Int) = 1) := by decide
    simp only [Deck.Header, h21, ↓reduceIte, Buffer.Write]
    exact rollback_state text happ hkeep hfalse _ out _ _
  · simp only [Deck.Paragraph, Buffer.Write]
    exact rollback_state text happ hkeep hfalse _ out _ _
  · by_cases h1 : Int.land flags env.LIST_TYPE_ORDERED = 0
    · by_cases h2 : Int.land flags env.LIST_ITEM_PLAIN = 0
      · simp only [Deck.List, h1, h2, ne_eq, not_true_eq_false, ↓reduceIte, Buffer.Write]
        exact rollback_state text happ hkeep hfalse _ out _ _
      · simp only [Deck.List, h1, h2, ne_eq, not_true_eq_false, not_false_eq_true, ↓reduceIte,
          Buffer.Write]
        exact rollback_state text happ hkeep hfalse _ out _ _
    · simp only [Deck.List, h1, ne_eq, not_false_eq_true, ↓reduceIte, Buffer.Write]
      exact rollback_state text happ hkeep hfalse _ out _ _

set_option maxRecDepth 100000 in
theorem rollback_keeps_cursor_changes_witness :
    AppendsOnly (writes (bytes "junk") false) ∧ KeepsState (writes (bytes "junk") false) ∧
    Reports (writes (bytes "junk") false) false ∧
    Deck.Header { DeckRenderer 0 with xp := Float64.ofNat 25, yp := Float64.ofNat 30 }
        (bytes "<slide>\n") (writes (bytes "junk") false) 1 =
      some ({ DeckRenderer 0 with sp := Float64.ofNat 4 }, bytes "<slide>\n") ∧
    ({ DeckRenderer 0 with sp := Float64.ofNat 4 } : Deck) ≠
      { DeckRenderer 0 with xp := Float64.ofNat 25, yp := Float64.ofNat 30 } ∧
    Deck.Paragraph { DeckRenderer 0 with sp := Float64.ofNat 4 } (bytes "<slide>\n")
        (writes (bytes "junk") false) = some (DeckRenderer 0, bytes "<slide>\n") :=
  ⟨fun _ _ => ⟨bytes "junk", rfl⟩, fun _ _ => rfl, fun _ _ => rfl,
    (rollback_keeps_cursor_changes stdEnv
      { DeckRenderer 0 with xp := Float64.ofNat 25, yp := Float64.ofNat 30 } (bytes "<slide>\n")
      (writes (bytes "junk") false) (fun _ _ => ⟨bytes "junk", rfl⟩) (fun _ _ => rfl)
      (fun _ _ => rfl)).1,
    by decide, by decide⟩

/-- The open tag `renderText` writes is a single tag when the type holds no
`<` and no `>`. -/
theorem isTag_renderText (x y z : Float64) (ttype : Bytes)
    (h60 : ttype.count 60 = 0) (h62 : ttype.count 62 = 0) :
    IsTag (bytes "<text xp=\"" ++ x.fmt2 ++ bytes "\" yp=\"" ++ y.fmt2 ++ bytes "\" sp=\""
      ++ z.fmt2 ++ bytes "\" type=\"" ++ ttype ++ bytes "\">") := by
  have hz := Float64.count_fmt2 z
  have key := isTag_pieces (bytes "<text xp=\"") (bytes "\" yp=\"")
    (bytes "\" sp=\"" ++ z.fmt2 ++ bytes "\" type=\"" ++ ttype ++ bytes "\">") x y
    (by decide)
    (by
      have e : (bytes "\">").getLast? = some 62 := by decide
      rw [List.getLast?_append, e]; rfl)
    (by decide) (by decide) (by decide) (by decide)
    (by
      have e1 : (bytes "\" sp=\"").count 60 = 0 := by decide
      have e2 : (bytes "\" type=\"").count 60 = 0 := by decide
      have e3 : (bytes "\">").count 60 = 0 := by decide
      simp only [List.count_append, e1, e2, e3, hz.1, h60])
    (by
      have e1 : (bytes "\" sp=\"").count 62 = 0 := by decide
      have e2 : (bytes "\" type=\"").count 62 = 0 := by decide
      have e3 : (bytes "\">").count 62 = 1 := by decide
      simp only [List.count_append, e1, e2, e3, hz.2, h62])
  simpa only [List.append_assoc] using key

set_option maxRecDepth 100000 in
/-- C11 as stated fails: `BlockQuote` has no children callback and no rollback;
with the empty content it still appends an open tag and a close tag. -/
theorem block_quote_empty_content_is_emitted :
    (DeckRenderer 0).BlockQuote stdEnv (bytes "<slide>\n") [] =
      ({ DeckRenderer 0 with xp := Float64.ofNat 15 },
        bytes "<slide>\n<text xp=\"15.00\" yp=\"90.00\" sp=\"2.00\" type=\"block\"></text>\n") ∧
    ((DeckRenderer 0).BlockQuote stdEnv (bytes "<slide>\n") []).2 ≠ bytes "<slide>\n" := by
  decide

/-- C11, amended. Block quotation always emits: in every state, for every sink
and every content (the empty one too), `BlockQuote` adds 5 to xp and appends
exactly one open tag `<text ... type="block">` that carries the new xp, the
escaped content, and `</text>\n`; there is no rollback, and yp, sp and the
slide counter are unchanged. -/
theorem block_quote_always_emits (env : Env) (options : Deck) (out : Buffer) (text : Bytes) :
    options.BlockQuote env out text =
      ({ options with xp := options.xp.add (Float64.ofNat 5) },
        out ++ (bytes "<text xp=\"" ++ (options.xp.add (Float64.ofNat 5)).fmt2 ++ bytes "\" yp=\""
          ++ options.yp.fmt2 ++ bytes "\" sp=\"" ++ options.sp.fmt2 ++ bytes "\" type=\""
          ++ bytes "block" ++ bytes "\">") ++ env.attrEscape text ++ bytes "</text>\n") ∧
    IsTag (bytes "<text xp=\"" ++ (options.xp.add (Float64.ofNat 5)).fmt2 ++ bytes "\" yp=\""
      ++ options.yp.fmt2 ++ bytes "\" sp=\"" ++ options.sp.fmt2 ++ bytes "\" type=\""
      ++ bytes "block" ++ bytes "\">") ∧
    tagName (bytes "<text xp=\"" ++ (options.xp.add (Float64.ofNat 5)).fmt2 ++ bytes "\" yp=\""
      ++ options.yp.fmt2 ++ bytes "\" sp=\"" ++ options.sp.fmt2 ++ bytes "\" type=\""
      ++ bytes "block" ++ bytes "\">") = tagName (bytes "</text>\n") ∧
    (options.BlockQuote env out text).1.yp = options.yp ∧
    (options.BlockQuote env out text).1.sp = options.sp ∧
    (options.BlockQuote env out text).1.slidenumber = options.slidenumber := by
  refine ⟨?_, isTag_renderText _ _ _ _ (by decide) (by decide), ?_, rfl, rfl, rfl⟩
  · simp only [Deck.BlockQuote, Deck.renderText, Buffer.Write, List.append_assoc]
  · simp only [List.append_assoc]
    exact (tagName_text _).trans (by decide)

/-- What `List` does, with the open tag spelled out: the callback is called on
the state with sp = 2 and on the sink with one `<list ...>` tag and a newline
appended. -/
theorem Deck.List_eq (env : Env) (options : Deck) (out : Buffer) (text : Children)
    (flags : Int) :
    options.List env out text flags =
      if !(text { options with sp := Float64.ofNat 2 }
          (out ++ specListOpenTag options (specListType env flags) ++ bytes "\n")).2 then
        ((text { options with sp := Float64.ofNat 2 }
          (out ++ specListOpenTag options (specListType env flags) ++ bytes "\n")).1.2.Truncate
          out.Len).map fun o =>
            ((text { options with sp := Float64.ofNat 2 }
              (out ++ specListOpenTag options (specListType env flags) ++ bytes "\n")).1.1, o)
      else
        some ((text { options with sp := Float64.ofNat 2 }
            (out ++ specListOpenTag options (specListType env flags) ++ bytes "\n")).1.1,
          (text { options with sp := Float64.ofNat 2 }
            (out ++ specListOpenTag options (specListType env flags) ++ bytes "\n")).1.2
            ++ bytes "</list>\n") := by
  have hr : ∀ t : Bytes, { options with sp := Float64.ofNat 2 }.renderList t =
      specListOpenTag options t ++ bytes "\n" := by
    intro t
    have h := bytes_sp_list t
    simp only [List.append_assoc] at h
    simp only [Deck.renderList, specListOpenTag, Float64.fmt2_two, List.append_assoc, h]
  unfold specListType
  by_cases h1 : Int.land flags env.LIST_TYPE_ORDERED = 0
  · by_cases h2 : Int.land flags env.LIST_ITEM_PLAIN = 0
    · simp only [Deck.List, hr, h1, h2, ne_eq, not_true_eq_false, ↓reduceIte, Buffer.Write,
        List.append_assoc]
    · simp only [Deck.List, hr, h1, h2, ne_eq, not_true_eq_false, not_false_eq_true, ↓reduceIte,
        Buffer.Write, List.append_assoc]
  · simp only [Deck.List, hr, h1, ne_eq, not_false_eq_true, ↓reduceIte, Buffer.Write,
      List.append_assoc]

theorem specListType_cases (env : Env) (flags : Int) :
    specListType env flags = bytes "number" ∨ specListType env flags = bytes "plain" ∨
      specListType env flags = bytes "bullet" := by
  unfold specListType
  split_ifs <;> simp

theorem isTag_specListOpenTag (env : Env) (options : Deck) (flags : Int) :
    IsTag (specListOpenTag options (specListType env flags)) :=
  isTag_list _ _ _ (specListType_cases env flags)

theorem tagName_specListOpenTag (options : Deck) (ltype : Bytes) :
    tagName (specListOpenTag options ltype) = bytes "list" := by
  simp only [specListOpenTag, List.append_assoc]
  exact tagName_list _

/-- C12. List type precedence: for every flags value the open tag `List` writes
is one `<list ...>` tag whose type is "number" when the ordered bit is set (the
plain bit set or not), "plain" when the ordered bit is clear and the plain bit
is set, and "bullet" when both are clear; its sp attribute is `2.00` whatever
sp was before. The callback is called with exactly this tag and a newline
appended to the sink; when it reports true `</list>\n` is appended to what it
leaves, when it reports false the sink is cut back to the mark; and with a
callback that writes `c` and reports true the sink ends as the sink before,
the tag, a newline, `c` and `</list>\n`. -/
theorem list_type_precedence (env : Env) (options : Deck) (out : Buffer) (flags : Int) :
    (Int.land flags env.LIST_TYPE_ORDERED ≠ 0 → specListType env flags = bytes "number") ∧
    (Int.land flags env.LIST_TYPE_ORDERED = 0 → Int.land flags env.LIST_ITEM_PLAIN ≠ 0 →
      specListType env flags = bytes "plain") ∧
    (Int.land flags env.LIST_TYPE_ORDERED = 0 → Int.land flags env.LIST_ITEM_PLAIN = 0 →
      specListType env flags = bytes "bullet") ∧
    IsTag (specListOpenTag options (specListType env flags)) ∧
    specListOpenTag options (specListType env flags) =
      bytes "<list xp=\"" ++ options.xp.fmt2 ++ bytes "\" yp=\"" ++ options.yp.fmt2
        ++ bytes "\" sp=\"2.00\" type=\"" ++ specListType env flags ++ bytes "\">" ∧
    (∀ (text : Children) (d : Deck) (o : Buffer),
      text { options with sp := Float64.ofNat 2 }
          (out ++ specListOpenTag options (specListType env flags) ++ bytes "\n") = ((d, o), true) →
        options.List env out text flags = some (d, o ++ bytes "</list>\n")) ∧
    (∀ (text : Children) (d : Deck) (o : Buffer),
      text { options with sp := Float64.ofNat 2 }
          (out ++ specListOpenTag options (specListType env flags) ++ bytes "\n") = ((d, o), false) →
        options.List env out text flags = (o.Truncate out.Len).map fun o1 => (d, o1)) ∧
    (∀ c : Bytes, options.List env out (writes c true) flags =
      some ({ options with sp := Float64.ofNat 2 },
        out ++ specListOpenTag options (specListType env flags) ++ bytes "\n" ++ c
          ++ bytes "</list>\n")) := by
  refine ⟨fun h => by simp [specListType, h], fun h1 h2 => by simp [specListType, h1, h2],
    fun h1 h2 => by simp [specListType, h1, h2], isTag_specListOpenTag env options flags, rfl,
    fun text d o h => by rw [Deck.List_eq, h]; rfl,
    fun text d o h => by rw [Deck.List_eq, h]; rfl,
    fun c => ?_⟩
  rw [Deck.List_eq]
  simp [writes, Buffer.Write]

set_option maxRecDepth 100000 in
theorem list_type_precedence_witness :
    Int.land 33 stdEnv.LIST_TYPE_ORDERED ≠ 0 ∧ specListType stdEnv 33 = bytes "number" ∧
    (Int.land 32 stdEnv.LIST_TYPE_ORDERED = 0 ∧ Int.land 32 stdEnv.LIST_ITEM_PLAIN ≠ 0) ∧
    specListType stdEnv 32 = bytes "plain" ∧
    (Int.land 2 stdEnv.LIST_TYPE_ORDERED = 0 ∧ Int.land 2 stdEnv.LIST_ITEM_PLAIN = 0) ∧
    specListType stdEnv 2 = bytes "bullet" ∧
    Deck.List stdEnv { DeckRenderer 0 with sp := Float64.ofNat 4 } [] (writes (bytes "x") true) 33 =
      some (DeckRenderer 0,
        bytes "<list xp=\"10.00\" yp=\"90.00\" sp=\"2.00\" type=\"number\">\nx</list>\n") :=
  ⟨by decide, (list_type_precedence stdEnv (DeckRenderer 0) [] 33).1 (by decide),
    by decide, (list_type_precedence stdEnv (DeckRenderer 0) [] 32).2.1 (by decide) (by decide),
    by decide, (list_type_precedence stdEnv (DeckRenderer 0) [] 2).2.2.1 (by decide) (by decide),
    by decide⟩

set_option maxRecDepth 100000 in
/-- C13 as stated fails: the close tag `List` writes has the element name of
the open tag it wrote. With flags 0 and a callback that writes `x` and reports
true the sink is `<list ...>`, a newline, `x` and `</list>`, and both element
names are `list`. -/
theorem list_close_tag_name_is_open_tag_name :
    (DeckRenderer 0).List stdEnv [] (writes (bytes "x") true) 0 =
      some (DeckRenderer 0,
        bytes "<list xp=\"10.00\" yp=\"90.00\" sp=\"2.00\" type=\"bullet\">" ++ bytes "\n"
          ++ bytes "x" ++ bytes "</list>\n") ∧
    tagName (bytes "<list xp=\"10.00\" yp=\"90.00\" sp=\"2.00\" type=\"bullet\">") = bytes "list" ∧
    tagName (bytes "</list>\n") = bytes "list" ∧
    ¬ (tagName (bytes "</list>\n") ≠
      tagName (bytes "<list xp=\"10.00\" yp=\"90.00\" sp=\"2.00\" type=\"bullet\">")) := by
  decide

/-- C13, amended. List close tag name: for every flags value and every children
callback that reports true, `List` calls the callback on the sink with the open
tag `<list ...>` and a newline appended and then appends the close tag
`</list>\n` to what the callback leaves; the element name in the close tag is
the element name in the open tag of the same call, `list`. -/
theorem list_close_tag_name (env : Env) (options : Deck) (out : Buffer) (text : Children)
    (flags : Int) (htrue : Reports text true) :
    options.List env out text flags =
      some ((text { options with sp := Float64.ofNat 2 }
          (out ++ specListOpenTag options (specListType env flags) ++ bytes "\n")).1.1,
        (text { options with sp := Float64.ofNat 2 }
          (out ++ specListOpenTag options (specListType env flags) ++ bytes "\n")).1.2
          ++ bytes "</list>\n") ∧
    tagName (bytes "</list>\n") = tagName (specListOpenTag options (specListType env flags)) ∧
    tagName (specListOpenTag options (specListType env flags)) = bytes "list" ∧
    isCloseTag (bytes "</list>\n") = true ∧
    isCloseTag (specListOpenTag options (specListType env flags)) = false := by
  refine ⟨?_, ?_, tagName_specListOpenTag _ _, by decide, ?_⟩
  · rw [Deck.List_eq, htrue]
    rfl
  · rw [tagName_specListOpenTag]
    decide
  · have h : bytes "<list xp=\"" = [60, 108, 105, 115, 116, 32, 120, 112, 61, 34] := by decide
    simp only [specListOpenTag, List.append_assoc, h]
    rfl

set_option maxRecDepth 100000 in
theorem list_close_tag_name_witness :
    Reports (writes (bytes "x") true) true ∧
    (DeckRenderer 0).List stdEnv [] (writes (bytes "x") true) 1 =
      some (DeckRenderer 0,
        bytes "<list xp=\"10.00\" yp=\"90.00\" sp=\"2.00\" type=\"number\">\nx</list>\n") ∧
    tagName (bytes "</list>\n") =
      tagName (specListOpenTag (DeckRenderer 0) (specListType stdEnv 1)) :=
  ⟨fun _ _ => rfl, by decide,
    (list_close_tag_name stdEnv (DeckRenderer 0) [] (writes (bytes "x") true) 1
      (fun _ _ => rfl)).2.1⟩

/-- What a container call leaves in the sink when the callback only appends:
the sink before the call, and possibly more. -/
theorem container_prefix (text : Children) (happ : AppendsOnly text) (d : Deck)
    (out w : Buffer) (f : Deck × Buffer → Deck × Buffer) (hf : ∀ x, x.2 <+: (f x).2) :
    ∃ s1, (if !(text d (out ++ w)).2 then
        ((text d (out ++ w)).1.2.Truncate out.Len).map fun o => ((text d (out ++ w)).1.1, o)
      else some (f (text d (out ++ w)).1)) = some s1 ∧ out <+: s1.2 := by
  obtain ⟨c, hc⟩ := happ d (out ++ w)
  by_cases hb : (text d (out ++ w)).2 = true
  · refine ⟨f (text d (out ++ w)).1, by simp [hb], ?_⟩
    refine List.IsPrefix.trans ?_ (hf _)
    rw [hc, List.append_assoc]
    exact List.prefix_append _ _
  · refine ⟨((text d (out ++ w)).1.1, out), ?_, List.prefix_refl _⟩
    rw [hc, List.append_assoc, Buffer.truncate_append]
    simp [hb]

/-- One call keeps the sink it was given as a prefix of the sink it leaves. -/
theorem Op.apply_prefix (env : Env) (op : Op) (s : Deck × Buffer)
    (ha : ∀ text, op.children = some text → AppendsOnly text) :
    ∃ s1, op.apply env s = some s1 ∧ s.2 <+: s1.2 := by
  cases op
  case Header text level =>
    have happ := ha text rfl
    by_cases h1 : level = 1
    · simp only [Op.apply, Deck.Header, h1, ↓reduceIte, Buffer.Write]
      exact container_prefix text happ _ s.2 _
        (fun x => ({ x.1 with yp := x.1.yp.sub (Float64.ofNat 10) }, x.2 ++ bytes "</text>\n"))
        (fun x => List.prefix_append _ _)
    · by_cases h2 : level = 2
      · simp only [Op.apply, Deck.Header, h2, ↓reduceIte, Buffer.Write]
        exact container_prefix text happ _ s.2 _
          (fun x => ({ x.1 with yp := x.1.yp.sub (Float64.ofNat 10) }, x.2 ++ bytes "</text>\n"))
          (fun x => List.prefix_append _ _)
      · simp only [Op.apply, Deck.Header, h1, h2, ↓reduceIte, Buffer.Write]
        have := container_prefix text happ { s.1 with xp := Float64.ofNat 10 } s.2 []
          (fun x => ({ x.1 with yp := x.1.yp.sub (Float64.ofNat 10) }, x.2 ++ bytes "</text>\n"))
          (fun x => List.prefix_append _ _)
        simpa only [List.append_nil] using this
  case Paragraph text =>
    simp only [Op.apply, Deck.Paragraph, Buffer.Write]
    exact container_prefix text (ha text rfl) _ s.2 _
      (fun x => ({ x.1 with yp := x.1.yp.sub (Float64.ofNat 20) }, x.2 ++ bytes "</text>\n"))
      (fun x => List.prefix_append _ _)
  case List text flags =>
    simp only [Op.apply]
    rw [Deck.List_eq, List.append_assoc]
    exact container_prefix text (ha text rfl) _ s.2 _
      (fun x => (x.1, x.2 ++ bytes "</list>\n")) (fun x => List.prefix_append _ _)
  case BlockCode text lang =>
    refine ⟨_, rfl, ?_⟩
    simp only [Deck.BlockCode, Buffer.Write, List.append_assoc]
    exact List.prefix_append _ _
  case BlockQuote text =>
    refine ⟨_, rfl, ?_⟩
    simp only [Deck.BlockQuote, Buffer.Write, List.append_assoc]
    exact List.prefix_append _ _
  case Image link title alt =>
    refine ⟨_, rfl, ?_⟩
    rw [Deck.Image_eq]
    exact List.prefix_append _ _
  case ListItem text flags =>
    refine ⟨_, rfl, ?_⟩
    simp only [Deck.ListItem, Buffer.Write, List.append_assoc]
    exact List.prefix_append _ _
  case HRule => exact ⟨_, rfl, List.prefix_append _ _⟩
  case Entity entity => exact ⟨_, rfl, List.prefix_append _ _⟩
  case NormalText text => exact ⟨_, rfl, List.prefix_append _ _⟩
  case DocumentHeader => exact ⟨_, rfl, List.prefix_append _ _⟩
  case DocumentFooter => exact ⟨_, rfl, List.prefix_append _ _⟩
  all_goals exact ⟨_, rfl, List.prefix_refl _⟩

theorem run_prefix (env : Env) (ops : List Op) (s : Deck × Buffer)
    (ha : ∀ op ∈ ops, ∀ text, op.children = some text → AppendsOnly text) :
    ∃ s1, run env ops s = some s1 ∧ s.2 <+: s1.2 := by
  induction ops generalizing s with
  | nil => exact ⟨s, rfl, List.prefix_refl _⟩
  | cons op rest ih =>
    obtain ⟨s1, h1, p1⟩ := Op.apply_prefix env op s (ha op (List.mem_cons_self _ _))
    obtain ⟨s2, h2, p2⟩ := ih s1 (fun o ho => ha o (List.mem_cons_of_mem _ ho))
    exact ⟨s2, by simp [run, h1, h2], p1.trans p2⟩

/-- C19. Append-only sink: for every call of the renderer, every state and
every sink `b`, when the children callback of the call only appends to the
sink, the call returns and `b` is a prefix of the sink it leaves; the same holds
for every sequence of calls. The one truncation, in a call whose callback
reports false, cuts the sink back to its length at the start of that call: the
sink is then `b` again. -/
theorem append_only_sink (env : Env) :
    (∀ (op : Op) (d : Deck) (b : Buffer),
      (∀ text, op.children = some text → AppendsOnly text) →
      ∃ s1, op.apply env (d, b) = some s1 ∧ b <+: s1.2) ∧
    (∀ (ops : List Op) (d : Deck) (b : Buffer),
      (∀ op ∈ ops, ∀ text, op.children = some text → AppendsOnly text) →
      ∃ s1, run env ops (d, b) = some s1 ∧ b <+: s1.2) ∧
    (∀ (op : Op) (d : Deck) (b : Buffer) (text : Children),
      op.children = some text → AppendsOnly text → Reports text false →
      ∃ s1, op.apply env (d, b) = some s1 ∧ s1.2 = b) := by
  refine ⟨fun op d b ha => Op.apply_prefix env op (d, b) ha,
    fun ops d b ha => run_prefix env ops (d, b) ha, ?_⟩
  intro op d b text hc happ hfalse
  cases op <;> simp only [Op.children, Option.some.injEq] at hc <;> try cases hc
  case Header level =>
    simp only [Op.apply]
    by_cases h1 : level = 1
    · simp only [Deck.Header, h1, ↓reduceIte, Buffer.Write]
      obtain ⟨d1, h⟩ := rollback_step text happ hfalse _ b _ _
      exact ⟨_, h, rfl⟩
    · by_cases h2 : level = 2
      · simp only [Deck.Header, h2, ↓reduceIte, Buffer.Write]
        obtain ⟨d1, h⟩ := rollback_step text happ hfalse _ b _ _
        exact ⟨_, h, rfl⟩
      · simp only [Deck.Header, h1, h2, ↓reduceIte, Buffer.Write]
        obtain ⟨d1, h⟩ := rollback_step text happ hfalse { d with xp := Float64.ofNat 10 } b [] _
        rw [List.append_nil] at h
        exact ⟨_, h, rfl⟩
  case Paragraph =>
    simp only [Op.apply, Deck.Paragraph, Buffer.Write]
    obtain ⟨d1, h⟩ := rollback_step text happ hfalse _ b _ _
    exact ⟨_, h, rfl⟩
  case List flags =>
    simp only [Op.apply]
    rw [Deck.List_eq, List.append_assoc]
    obtain ⟨d1, h⟩ := rollback_step text happ hfalse _ b _ _
    exact ⟨_, h, rfl⟩

theorem append_only_sink_witness :
    (∀ op ∈ twoSlides, ∀ text, op.children = some text → AppendsOnly text) ∧
    ∃ s1, run stdEnv twoSlides (DeckRenderer 0, bytes "<!-- deck -->\n") = some s1 ∧
      bytes "<!-- deck -->\n" <+: s1.2 :=
  ⟨twoSlides_appendsOnly,
    (append_only_sink stdEnv).2.1 twoSlides (DeckRenderer 0) (bytes "<!-- deck -->\n")
      twoSlides_appendsOnly⟩

theorem Float64.bitLenAux_spec (fuel n : Nat) (h : n ≤ fuel) (hn : 0 < n) :
    0 < Float64.bitLenAux fuel n ∧ 2 ^ (Float64.bitLenAux fuel n - 1) ≤ n ∧
      n < 2 ^ Float64.bitLenAux fuel n := by
  induction fuel generalizing n with
  | zero => omega
  | succ fuel ih =>
    unfold Float64.bitLenAux
    rw [if_neg (by omega)]
    by_cases h2 : n / 2 = 0
    · have h1 : n = 1 := by omega
      subst h1
      cases fuel <;> simp [Float64.bitLenAux]
    · obtain ⟨p1, p2, p3⟩ := ih (n / 2) (by omega) (by omega)
      refine ⟨by omega, ?_, ?_⟩
      · have e : Float64.bitLenAux fuel (n / 2) + 1 - 1
            = (Float64.bitLenAux fuel (n / 2) - 1) + 1 := by omega
        rw [e, pow_succ]
        omega
      · rw [pow_succ]
        omega

theorem Float64.bitLen_spec (n : Nat) (hn : 0 < n) :
    0 < Float64.bitLen n ∧ 2 ^ (Float64.bitLen n - 1) ≤ n ∧ n < 2 ^ Float64.bitLen n :=
  Float64.bitLenAux_spec n n (le_refl n) hn

/-- The number of binary digits of `n` is the `w` with `2^(w-1) ≤ n < 2^w`. -/
theorem Float64.bitLen_unique (n w : Nat) (hw : 0 < w) (h1 : 2 ^ (w - 1) ≤ n) (h2 : n < 2 ^ w) :
    Float64.bitLen n = w := by
  have hn : 0 < n := lt_of_lt_of_le (by positivity) h1
  obtain ⟨p1, p2, p3⟩ := Float64.bitLen_spec n hn
  by_contra hne
  rcases Nat.lt_or_gt_of_ne hne with h | h
  · have : 2 ^ Float64.bitLen n ≤ 2 ^ (w - 1) := Nat.pow_le_pow_right (by norm_num) (by omega)
    omega
  · have : 2 ^ w ≤ 2 ^ (Float64.bitLen n - 1) := Nat.pow_le_pow_right (by norm_num) (by omega)
    omega

theorem Float64.bitLen_mul_pow (n j : Nat) (hn : 0 < n) :
    Float64.bitLen (n * 2 ^ j) = Float64.bitLen n + j := by
  obtain ⟨p1, p2, p3⟩ := Float64.bitLen_spec n hn
  apply Float64.bitLen_unique
  · omega
  · have e : Float64.bitLen n + j - 1 = (Float64.bitLen n - 1) + j := by omega
    rw [e, pow_add]
    exact Nat.mul_le_mul_right _ p2
  · rw [pow_add]
    exact Nat.mul_lt_mul_of_pos_right p3 (by positivity)

theorem Float64.bitLen_pow (j : Nat) : Float64.bitLen (2 ^ j) = j + 1 := by
  apply Float64.bitLen_unique
  · omega
  · simp
  · exact Nat.pow_lt_pow_right (by norm_num) (by omega)

theorem Float64.divRoundEven_mul (x d : Nat) (hd : 0 < d) : Float64.divRoundEven (x * d) d = x := by
  unfold Float64.divRoundEven
  have hq : x * d / d = x := Nat.mul_div_cancel _ hd
  have hr : x * d % d = 0 := Nat.mul_mod_left _ _
  simp only [hq, hr]
  rw [if_neg]
  omega

/-- Rounding a whole number of at most 53 binary digits is exact: the result is
its normalised form. -/
theorem Float64.round_whole (s : Bool) (N j : Nat) (hN : 0 < N)
    (hw : Float64.bitLen N ≤ 53) :
    Float64.round s (N * 2 ^ j) (2 ^ j) =
      Float64.fin s (N * 2 ^ (53 - Float64.bitLen N)) (-((53 - Float64.bitLen N : Nat) : Int)) := by
  obtain ⟨p1, p2, p3⟩ := Float64.bitLen_spec N hN
  set w := Float64.bitLen N with hwdef
  have hj : 0 < 2 ^ j := by positivity
  have hn0 : N * 2 ^ j ≠ 0 := by positivity
  have he0 : ((Float64.bitLen (N * 2 ^ j) : Int) - (Float64.bitLen (2 ^ j) : Int) - 53)
      = -((54 - w : Nat) : Int) := by
    rw [Float64.bitLen_mul_pow N j hN, Float64.bitLen_pow]
    push_cast
    omega
  have hs0 : Float64.scaled (N * 2 ^ j) (2 ^ j) (-(-((54 - w : Nat) : Int)))
      = (N * 2 ^ j * 2 ^ (54 - w), 2 ^ j) := by
    unfold Float64.scaled
    rw [if_pos (by omega)]
    simp
  have hq0 : N * 2 ^ j * 2 ^ (54 - w) / 2 ^ j = N * 2 ^ (54 - w) := by
    rw [show N * 2 ^ j * 2 ^ (54 - w) = N * 2 ^ (54 - w) * 2 ^ j by ring]
    exact Nat.mul_div_cancel _ hj
  have hbig : 2 ^ 53 ≤ N * 2 ^ (54 - w) := by
    have : 2 ^ (w - 1) * 2 ^ (54 - w) ≤ N * 2 ^ (54 - w) := Nat.mul_le_mul_right _ p2
    rw [← pow_add] at this
    have e : w - 1 + (54 - w) = 53 := by omega
    rwa [e] at this
  have hs : Float64.scaled (N * 2 ^ j) (2 ^ j) (-(-((53 - w : Nat) : Int)))
      = (N * 2 ^ (53 - w) * 2 ^ j, 2 ^ j) := by
    unfold Float64.scaled
    rw [if_pos (by omega)]
    simp
    ring
  have hm : N * 2 ^ (53 - w) < 2 ^ 53 := by
    have : N * 2 ^ (53 - w) < 2 ^ w * 2 ^ (53 - w) :=
      Nat.mul_lt_mul_of_pos_right p3 (by positivity)
    rw [← pow_add] at this
    have e : w + (53 - w) = 53 := by omega
    rwa [e] at this
  have hm0 : N * 2 ^ (53 - w) ≠ 0 := by positivity
  have he1 : (-((54 - w : Nat) : Int)) + 1 = -((53 - w : Nat) : Int) := by omega
  unfold Float64.round
  rw [if_neg hn0]
  simp only [he0, hs0, hq0, if_pos hbig, he1]
  rw [if_neg (by omega : ¬ (-((53 - w : Nat) : Int)) < -1074)]
  simp only [hs, Float64.divRoundEven_mul _ _ hj]
  rw [if_neg (by omega : ¬ N * 2 ^ (53 - w) = 2 ^ 53)]
  simp only []
  rw [if_neg (by omega : ¬ (971 : Int) < -((53 - w : Nat) : Int)), if_neg hm0]

theorem Float64.bitLen_le_53 (N : Nat) (hN : 0 < N) (h : N < 2 ^ 53) : Float64.bitLen N ≤ 53 := by
  obtain ⟨p1, p2, p3⟩ := Float64.bitLen_spec N hN
  by_contra hc
  have : 2 ^ 53 ≤ 2 ^ (Float64.bitLen N - 1) := Nat.pow_le_pow_right (by norm_num) (by omega)
  omega

/-- The float64 of a whole number below `2^53` in magnitude: its magnitude
shifted left by some `E ≤ 52`, with the exponent `-E`. -/
theorem Float64.ofInt_form (k : Int) (hk : k.natAbs < 2 ^ 53) :
    ∃ E : Nat, Float64.ofInt k = Float64.fin (decide (k < 0)) (k.natAbs * 2 ^ E) (-(E : Int)) := by
  by_cases h0 : k = 0
  · subst h0
    exact ⟨0, by decide⟩
  · have hN : 0 < k.natAbs := Int.natAbs_pos.2 h0
    have hw := Float64.bitLen_le_53 _ hN hk
    refine ⟨53 - Float64.bitLen k.natAbs, ?_⟩
    have := Float64.round_whole (decide (k < 0)) k.natAbs 0 hN hw
    simpa [Float64.ofInt] using this

theorem Float64.add_fin_fin (s t : Bool) (m n : Nat) (e f : Int) :
    Float64.add (Float64.fin s m e) (Float64.fin t n f) =
      if (if s then -((m * 2 ^ (e - (if e ≤ f then e else f)).toNat : Nat) : Int)
            else ((m * 2 ^ (e - (if e ≤ f then e else f)).toNat : Nat) : Int))
          + (if t then -((n * 2 ^ (f - (if e ≤ f then e else f)).toNat : Nat) : Int)
            else ((n * 2 ^ (f - (if e ≤ f then e else f)).toNat : Nat) : Int)) = 0
      then Float64.fin (s && t) 0 0
      else Float64.round (decide ((if s then -((m * 2 ^ (e - (if e ≤ f then e else f)).toNat : Nat) : Int)
            else ((m * 2 ^ (e - (if e ≤ f then e else f)).toNat : Nat) : Int))
          + (if t then -((n * 2 ^ (f - (if e ≤ f then e else f)).toNat : Nat) : Int)
            else ((n * 2 ^ (f - (if e ≤ f then e else f)).toNat : Nat) : Int)) < 0))
        (Float64.scaled ((if s then -((m * 2 ^ (e - (if e ≤ f then e else f)).toNat : Nat) : Int)
            else ((m * 2 ^ (e - (if e ≤ f then e else f)).toNat : Nat) : Int))
          + (if t then -((n * 2 ^ (f - (if e ≤ f then e else f)).toNat : Nat) : Int)
            else ((n * 2 ^ (f - (if e ≤ f then e else f)).toNat : Nat) : Int))).natAbs 1
          (if e ≤ f then e else f)).1
        (Float64.scaled ((if s then -((m * 2 ^ (e - (if e ≤ f then e else f)).toNat : Nat) : Int)
            else ((m * 2 ^ (e - (if e ≤ f then e else f)).toNat : Nat) : Int))
          + (if t then -((n * 2 ^ (f - (if e ≤ f then e else f)).toNat : Nat) : Int)
            else ((n * 2 ^ (f - (if e ≤ f then e else f)).toNat : Nat) : Int))).natAbs 1
          (if e ≤ f then e else f)).2 := rfl

theorem Float64.signed_natAbs (a : Int) (J : Nat) :
    (if decide (a < 0) = true then -((a.natAbs * 2 ^ J : Nat) : Int)
      else ((a.natAbs * 2 ^ J : Nat) : Int)) = a * 2 ^ J := by
  by_cases h : a < 0
  · simp only [h, decide_True, ↓reduceIte]
    push_cast
    rw [abs_of_neg h]
    ring
  · simp only [h, decide_False, Bool.false_eq_true, ↓reduceIte]
    push_cast
    rw [abs_of_nonneg (not_lt.1 h)]

theorem Float64.round_scale (s : Bool) (N J : Nat) (hN : 0 < N) (h : N < 2 ^ 53) :
    Float64.round s (Float64.scaled (N * 2 ^ J) 1 (-(J : Int))).1
      (Float64.scaled (N * 2 ^ J) 1 (-(J : Int))).2 = Float64.round s N 1 := by
  have hw := Float64.bitLen_le_53 N hN h
  have h0 := Float64.round_whole s N 0 hN hw
  simp only [pow_zero, mul_one] at h0
  by_cases hJ : J = 0
  · subst hJ
    simp [Float64.scaled]
  · have hs : Float64.scaled (N * 2 ^ J) 1 (-(J : Int)) = (N * 2 ^ J, 2 ^ J) := by
      unfold Float64.scaled
      rw [if_neg (by omega)]
      simp
    rw [hs, h0]
    exact Float64.round_whole s N J hN hw

/-- Adding two whole numbers in float64 is exact while the operands and the
sum stay below `2^53` in magnitude. -/
theorem Float64.add_ofInt (a b : Int) (ha : a.natAbs < 2 ^ 53) (hb : b.natAbs < 2 ^ 53)
    (hab : (a + b).natAbs < 2 ^ 53) :
    (Float64.ofInt a).add (Float64.ofInt b) = Float64.ofInt (a + b) := by
  obtain ⟨Ea, hEa⟩ := Float64.ofInt_form a ha
  obtain ⟨Eb, hEb⟩ := Float64.ofInt_form b hb
  rw [hEa, hEb, Float64.add_fin_fin]
  have hg : (if (-(Ea : Int)) ≤ -(Eb : Int) then -(Ea : Int) else -(Eb : Int))
      = -((max Ea Eb : Nat) : Int) := by
    split_ifs <;> omega
  have h1 : (-(Ea : Int) - -((max Ea Eb : Nat) : Int)).toNat = max Ea Eb - Ea := by omega
  have h2 : (-(Eb : Int) - -((max Ea Eb : Nat) : Int)).toNat = max Ea Eb - Eb := by omega
  have hma : a.natAbs * 2 ^ Ea * 2 ^ (max Ea Eb - Ea) = a.natAbs * 2 ^ max Ea Eb := by
    rw [mul_assoc, ← pow_add]
    congr 2
    omega
  have hmb : b.natAbs * 2 ^ Eb * 2 ^ (max Ea Eb - Eb) = b.natAbs * 2 ^ max Ea Eb := by
    rw [mul_assoc, ← pow_add]
    congr 2
    omega
  simp only [hg, h1, h2, hma, hmb, Float64.signed_natAbs]
  have hsum : a * 2 ^ max Ea Eb + b * 2 ^ max Ea Eb = (a + b) * 2 ^ max Ea Eb := by ring
  have hpos : (0 : Int) < 2 ^ max Ea Eb := by positivity
  rw [hsum]
  by_cases h0 : a + b = 0
  · rw [if_pos (by rw [h0]; simp)]
    have hs : (decide (a < 0) && decide (b < 0)) = false := by
      by_cases h : a < 0
      · have : ¬ b < 0 := by omega
        simp [this]
      · simp [h]
    rw [hs, h0]
    decide
  · rw [if_neg (mul_ne_zero h0 (ne_of_gt hpos))]
    have hN : 0 < (a + b).natAbs := Int.natAbs_pos.2 h0
    have hlt : decide ((a + b) * 2 ^ max Ea Eb < 0) = decide (a + b < 0) := by
      congr 1
      apply propext
      constructor
      · intro h
        by_contra hc
        have : 0 ≤ (a + b) * 2 ^ max Ea Eb := mul_nonneg (not_lt.1 hc) (le_of_lt hpos)
        omega
      · intro h
        exact mul_neg_of_neg_of_pos h hpos
    have habs : ((a + b) * 2 ^ max Ea Eb).natAbs = (a + b).natAbs * 2 ^ max Ea Eb := by
      rw [Int.natAbs_mul, Int.natAbs_pow]
      rfl
    rw [hlt, habs, Float64.round_scale _ _ _ hN hab]
    rfl

theorem Float64.neg_ofInt (k : Int) (h0 : k ≠ 0) (hk : k.natAbs < 2 ^ 53) :
    (Float64.ofInt k).neg = Float64.ofInt (-k) := by
  have hN : 0 < k.natAbs := Int.natAbs_pos.2 h0
  have hw := Float64.bitLen_le_53 _ hN hk
  have h1 := Float64.round_whole (decide (k < 0)) k.natAbs 0 hN hw
  have h2 := Float64.round_whole (decide (-k < 0)) k.natAbs 0 hN hw
  simp only [pow_zero, mul_one] at h1 h2
  have hs : (!decide (k < 0)) = decide (-k < 0) := by
    by_cases h : k < 0
    · have : ¬ -k < 0 := by omega
      simp [h, this]
    · have : -k < 0 := by omega
      simp [h, this]
  unfold Float64.ofInt
  rw [Int.natAbs_neg, h1, h2, Float64.neg, hs]

/-- Subtracting a whole number other than zero in float64 is exact while the
operands and the difference stay below `2^53` in magnitude. -/
theorem Float64.sub_ofInt (a b : Int) (hb0 : b ≠ 0) (ha : a.natAbs < 2 ^ 53)
    (hb : b.natAbs < 2 ^ 53) (hab : (a - b).natAbs < 2 ^ 53) :
    (Float64.ofInt a).sub (Float64.ofInt b) = Float64.ofInt (a - b) := by
  unfold Float64.sub
  rw [Float64.neg_ofInt b hb0 hb, Float64.add_ofInt a (-b) ha (by simpa using hb)
    (by simpa [sub_eq_add_neg] using hab), sub_eq_add_neg]

theorem Float64.ofNat_eq_ofInt (n : Nat) : Float64.ofNat n = Float64.ofInt n := by
  unfold Float64.ofNat Float64.ofInt
  have : decide ((n : Int) < 0) = false := by simp
  rw [this, Int.natAbs_ofNat]

/-- The state `Paragraph` returns when the callback leaves the renderer alone. -/
theorem Deck.Paragraph_state (options : Deck) (out : Buffer) (text : Children)
    (s1 : Deck × Buffer) (hk : KeepsState text) (h : options.Paragraph out text = some s1) :
    s1.1 =
      if (text { options with sp := Float64.ofNat 2 }
          (out ++ { options with sp := Float64.ofNat 2 }.renderText (bytes "block"))).2 then
        { options with sp := Float64.ofNat 2, yp := options.yp.sub (Float64.ofNat 20) }
      else { options with sp := Float64.ofNat 2 } := by
  have hk1 : ∀ d o, (text d o).1.1 = d := hk
  unfold Deck.Paragraph at h
  simp only [hk1, Buffer.Write] at h
  split_ifs at h with hb
  · obtain ⟨o, -, rfl⟩ := Option.map_eq_some'.1 h
    simp only [Bool.not_eq_true', Bool.not_eq_true] at hb
    simp [hb]
  · cases h
    simp only [Bool.not_eq_true', Bool.not_eq_true, Bool.not_eq_false] at hb
    simp [hb]

theorem Deck.Header_xp (options : Deck) (out : Buffer) (text : Children) (level : Int)
    (s1 : Deck × Buffer) (hk : KeepsState text) (h : options.Header out text level = some s1) :
    s1.1.xp = Float64.ofNat 10 := by
  have hk1 : ∀ d o, (text d o).1.1 = d := hk
  unfold Deck.Header at h
  simp only [hk1] at h
  split_ifs at h <;>
    first
    | (obtain ⟨o, -, rfl⟩ := Option.map_eq_some'.1 h; simp)
    | (cases h; simp)

/-- A run of `Paragraph` calls whose callbacks leave the renderer alone keeps
xp. -/
theorem run_paragraphs_xp (env : Env) (ops : List Op) (s s1 : Deck × Buffer)
    (hp : ∀ op ∈ ops, ∃ text, op = Op.Paragraph text ∧ KeepsState text)
    (h : run env ops s = some s1) : s1.1.xp = s.1.xp := by
  induction ops generalizing s with
  | nil => cases h; rfl
  | cons op rest ih =>
    obtain ⟨text, rfl, hk⟩ := hp _ (List.mem_cons_self _ _)
    unfold run at h
    cases hop : (Op.Paragraph text).apply env s with
    | none => simp [hop] at h
    | some s2 =>
      rw [hop] at h
      have h2 := Deck.Paragraph_state s.1 s.2 text s2 hk hop
      have h3 := ih s2 (fun o ho => hp o (List.mem_cons_of_mem _ ho)) h
      rw [h3, h2]
      split_ifs <;> rfl

set_option maxRecDepth 100000 in
/-- C15 as stated fails: `yp -= 20` is a float64 subtraction. At yp = 2^60,
where neighbouring float64 values are 256 apart, a `Paragraph` whose callback
reports true leaves yp at 2^60, and at yp = +Inf it leaves +Inf. -/
theorem paragraph_step_is_rounded :
    Deck.Paragraph { DeckRenderer 0 with yp := Float64.ofNat (2 ^ 60) } []
        (writes (bytes "x") true) =
      some ({ DeckRenderer 0 with yp := Float64.ofNat (2 ^ 60) },
        bytes ("<text xp=\"10.00\" yp=\"1152921504606846976.00\" sp=\"2.00\" type=\"block\">"
          ++ "x</text>\n")) ∧
    (Float64.ofNat (2 ^ 60)).sub (Float64.ofNat 20) = Float64.ofNat (2 ^ 60) ∧
    Float64.ofNat (2 ^ 60) = Float64.fin false (2 ^ 52) 8 ∧
    (Deck.Paragraph { DeckRenderer 0 with yp := Float64.inf false } []
        (writes (bytes "x") true)).map (fun s => s.1.yp) = some (Float64.inf false) := by
  decide

/-- Inside a quoted value the scan for an attribute goes on to the closing
quote. -/
theorem hasAttrFrom_inside (name X rest : Bytes) (hX : (34 : Byte) ∉ X) :
    hasAttrFrom name (X ++ 34 :: rest) true = hasAttrFrom name rest false := by
  induction X with
  | nil => simp [hasAttrFrom]
  | cons x X ih =>
    have hx : x ≠ 34 := fun h => hX (h ▸ List.mem_cons_self _ _)
    have := ih (fun hm => hX (List.mem_cons_of_mem _ hm))
    simp [hasAttrFrom, hx, this]

/-- Outside the quoted values, a piece without a quote that does not end in
` name=` holds no attribute `name`: the scan goes on to the opening quote. -/
theorem hasAttrFrom_outside (name lit rest : Bytes) (hn : (34 : Byte) ∉ name)
    (hl : (34 : Byte) ∉ lit) (hs : ¬ (32 :: name ++ [61]) <:+ lit) :
    hasAttrFrom name (lit ++ 34 :: rest) false = hasAttrFrom name rest true := by
  induction lit with
  | nil => simp [hasAttrFrom]
  | cons x lit ih =>
    have hx : x ≠ 34 := fun h => hl (h ▸ List.mem_cons_self _ _)
    have hrec := ih (fun hm => hl (List.mem_cons_of_mem _ hm))
      (fun h => hs (h.trans (List.suffix_cons x lit)))
    have hno : (32 :: name ++ [61, 34]).isPrefixOf (x :: lit ++ 34 :: rest) = false := by
      rw [Bool.eq_false_iff]
      intro hp
      rw [List.isPrefixOf_iff_prefix] at hp
      have hq : (32 :: name ++ [61]) ++ 34 :: [] <+: (x :: lit) ++ 34 :: rest := by
        simpa using hp
      have hmem : (34 : Byte) ∉ (32 :: name ++ [61] : Bytes) := by
        simp only [List.cons_append, List.mem_cons, List.mem_append, List.mem_singleton,
          List.not_mem_nil, or_false, not_or]
        exact ⟨by decide, hn, by decide⟩
      have := (prefix_split 34 _ _ _ _ hmem hl hq).1
      exact hs (by rw [this])
    rw [List.cons_append, hasAttrFrom, if_neg hx]
    simp only [List.cons_append] at hno ⊢
    rw [hno, hrec]
    simp

/-- Outside the quoted values, the bytes ` name="` are the attribute `name`. -/
theorem hasAttrFrom_here (name rest : Bytes) :
    hasAttrFrom name ((32 :: name ++ [61, 34]) ++ rest) false = true := by
  have hp : (32 :: name ++ [61, 34]).isPrefixOf ((32 :: name ++ [61, 34]) ++ rest) = true := by
    rw [List.isPrefixOf_iff_prefix]
    exact List.prefix_append _ _
  have h32 : ¬ ((32 : Byte) = 34) := by decide
  have hc : (32 :: name ++ [61, 34]) ++ rest = 32 :: (name ++ [61, 34] ++ rest) := by simp
  rw [hc] at hp ⊢
  rw [hasAttrFrom, if_neg h32, hp]
  rfl

/-- In the element of the four-token branch the name and the positional
attributes hold no caption attribute: the scan reaches what follows them
outside the quoted values. -/
theorem hasAttr_caption_four (L t0 t1 t2 t3 tail : Bytes) (hL : (34 : Byte) ∉ L)
    (h0 : (34 : Byte) ∉ t0) (h1 : (34 : Byte) ∉ t1) (h2 : (34 : Byte) ∉ t2)
    (h3 : (34 : Byte) ∉ t3) :
    hasAttr (bytes "caption") (bytes "<image name=\"" ++ L
      ++ (bytes "\" xp=\"" ++ t0 ++ bytes "\" yp=\"" ++ t1 ++ bytes "\" width=\"" ++ t2
        ++ bytes "\" height=\"" ++ t3 ++ bytes "\"") ++ tail) =
      hasAttrFrom (bytes "caption") tail false := by
  have e0 : bytes "<image name=\"" = bytes "<image name=" ++ [34] := by decide
  have e1 : bytes "\" xp=\"" = 34 :: (bytes " xp=" ++ [34]) := by decide
  have e2 : bytes "\" yp=\"" = 34 :: (bytes " yp=" ++ [34]) := by decide
  have e3 : bytes "\" width=\"" = 34 :: (bytes " width=" ++ [34]) := by decide
  have e4 : bytes "\" height=\"" = 34 :: (bytes " height=" ++ [34]) := by decide
  have e5 : bytes "\"" = [34] := by decide
  have hn : (34 : Byte) ∉ bytes "caption" := by decide
  unfold hasAttr
  simp only [e0, e1, e2, e3, e4, e5, List.append_assoc, List.cons_append, List.nil_append]
  rw [hasAttrFrom_outside (bytes "caption") (bytes "<image name=") _ hn (by decide) (by decide),
    hasAttrFrom_inside _ _ _ hL,
    hasAttrFrom_outside (bytes "caption") (bytes " xp=") _ hn (by decide) (by decide),
    hasAttrFrom_inside _ _ _ h0,
    hasAttrFrom_outside (bytes "caption") (bytes " yp=") _ hn (by decide) (by decide),
    hasAttrFrom_inside _ _ _ h1,
    hasAttrFrom_outside (bytes "caption") (bytes " width=") _ hn (by decide) (by decide),
    hasAttrFrom_inside _ _ _ h2,
    hasAttrFrom_outside (bytes "caption") (bytes " height=") _ hn (by decide) (by decide),
    hasAttrFrom_inside _ _ _ h3]

/-- The element of the default branch with no title holds no caption
attribute. -/
theorem hasAttr_caption_default (L : Bytes) (hL : (34 : Byte) ∉ L) :
    hasAttr (bytes "caption") (bytes "<image name=\"" ++ L
      ++ bytes " xp=\"50\" yp=\"50\" width=\"100\" height=\"100\"" ++ bytes " />\n") = false := by
  have e0 : bytes "<image name=\"" = bytes "<image name=" ++ [34] := by decide
  have e1 : bytes " xp=\"50\" yp=\"50\" width=\"100\" height=\"100\"" =
      bytes " xp=" ++ 34 :: bytes "50\" yp=\"50\" width=\"100\" height=\"100\"" := by decide
  have hn : (34 : Byte) ∉ bytes "caption" := by decide
  have hin : (34 : Byte) ∉ L ++ bytes " xp=" := by
    intro h
    rcases List.mem_append.1 h with h | h
    · exact hL h
    · revert h; decide
  have hrest : hasAttrFrom (bytes "caption")
      (bytes "50\" yp=\"50\" width=\"100\" height=\"100\"" ++ bytes " />\n") false = false := by
    decide
  unfold hasAttr
  simp only [e0, e1, List.append_assoc, List.cons_append, List.nil_append]
  rw [hasAttrFrom_outside (bytes "caption") (bytes "<image name=") _ hn (by decide) (by decide),
    ← List.append_assoc, hasAttrFrom_inside _ _ _ hin, hrest]

/-- C6, amended. Image caption: `Image` appends `<image name="`, the escaped
link, the positional attributes, then ` caption="` with the escaped title and a
quote when the title is not empty and nothing when it is empty, then ` />\n`.
When neither the alt text nor what the escaping writes holds a double quote,
the appended bytes end in the caption attribute of the title followed by
` />\n` if and only if the title is not empty, and with an empty title they hold
no caption attribute at all; with four alt tokens and a title they do hold
one. -/
theorem image_caption (env : Env) (options : Deck) (out : Buffer) (link title alt : Bytes) :
    (options.Image env out link title alt).2 =
      out ++ (bytes "<image name=\"" ++ env.attrEscape link
        ++ (if (Split alt 44).length = 4 then
            bytes "\" xp=\"" ++ (Split alt 44).getD 0 [] ++ bytes "\" yp=\""
              ++ (Split alt 44).getD 1 [] ++ bytes "\" width=\"" ++ (Split alt 44).getD 2 []
              ++ bytes "\" height=\"" ++ (Split alt 44).getD 3 [] ++ bytes "\""
          else bytes " xp=\"50\" yp=\"50\" width=\"100\" height=\"100\"")
        ++ (if title = [] then [] else bytes " caption=\"" ++ env.attrEscape title ++ bytes "\"")
        ++ bytes " />\n") ∧
    bytes " />\n" <:+ (options.Image env out link title alt).2.drop out.length ∧
    ((34 : Byte) ∉ alt → (∀ s, (34 : Byte) ∉ env.attrEscape s) →
      ((bytes " caption=\"" ++ env.attrEscape title ++ bytes "\" />\n") <:+
        ((options.Image env out link title alt).2.drop out.length) ↔ title ≠ []) ∧
      (title = [] →
        hasAttr (bytes "caption") ((options.Image env out link title alt).2.drop out.length)
          = false) ∧
      ((Split alt 44).length = 4 → title ≠ [] →
        hasAttr (bytes "caption") ((options.Image env out link title alt).2.drop out.length)
          = true)) := by
  refine ⟨?_, ?_, fun halt hesc => ⟨?_, ?_, ?_⟩⟩
  · unfold Deck.Image
    by_cases h4 : (Split alt 44).length = 4 <;> by_cases ht : title = [] <;>
      simp [h4, ht, Buffer.Write, List.length_pos]
  · rw [Deck.Image_eq, List.drop_left]
    exact List.suffix_append _ _
  · rw [Deck.Image_eq]
    simp only [List.drop_left]
    by_cases ht : title = []
    · simp only [ht, ↓reduceIte, List.append_nil, ne_eq, not_true_eq_false, iff_false]
      by_cases h4 : (Split alt 44).length = 4
      · have hh : bytes "\" height=\"" = bytes "\"" ++ bytes " height=\"" := by decide
        have ht3 : (34 : Byte) ∉ (Split alt 44).getD 3 [] :=
          getD_quote_free _ _ (fun t ht hm => halt (Split_mem alt 44 t ht 34 hm).1)
        have key := no_caption_suffix (bytes "<image name=\"" ++ env.attrEscape link
          ++ bytes "\" xp=\"" ++ (Split alt 44).getD 0 [] ++ bytes "\" yp=\""
          ++ (Split alt 44).getD 1 [] ++ bytes "\" width=\"" ++ (Split alt 44).getD 2 []
          ++ bytes "\"") _ _ ht3 (hesc [])
        simp only [h4, ↓reduceIte, hh]
        simpa only [List.append_assoc] using key
      · have hd : bytes " xp=\"50\" yp=\"50\" width=\"100\" height=\"100\"" =
            bytes " xp=\"50\" yp=\"50\" width=\"100\"" ++ bytes " height=\"" ++ bytes "100"
              ++ bytes "\"" := by decide
        have key := no_caption_suffix (bytes "<image name=\"" ++ env.attrEscape link
          ++ bytes " xp=\"50\" yp=\"50\" width=\"100\"") (bytes "100") _ (by decide) (hesc [])
        simp only [h4, ↓reduceIte, hd]
        simpa only [List.append_assoc] using key
    · simp only [ht, ↓reduceIte, ne_eq, not_false_eq_true, iff_true]
      have hq : bytes "\" />\n" = bytes "\"" ++ bytes " />\n" := by decide
      rw [hq]
      refine ⟨bytes "<image name=\"" ++ env.attrEscape link
          ++ (if (Split alt 44).length = 4 then
              bytes "\" xp=\"" ++ (Split alt 44).getD 0 [] ++ bytes "\" yp=\""
                ++ (Split alt 44).getD 1 [] ++ bytes "\" width=\"" ++ (Split alt 44).getD 2 []
                ++ bytes "\" height=\"" ++ (Split alt 44).getD 3 [] ++ bytes "\""
            else bytes " xp=\"50\" yp=\"50\" width=\"100\" height=\"100\""), ?_⟩
      simp only [List.append_assoc]
  · intro ht
    have hq : ∀ i, (34 : Byte) ∉ (Split alt 44).getD i [] := fun i =>
      getD_quote_free _ _ (fun t ht hm => halt (Split_mem alt 44 t ht 34 hm).1)
    rw [Deck.Image_eq, List.drop_left]
    by_cases h4 : (Split alt 44).length = 4
    · simp only [h4, ht, ↓reduceIte, List.append_nil]
      rw [hasAttr_caption_four _ _ _ _ _ _ (hesc link) (hq 0) (hq 1) (hq 2) (hq 3)]
      decide
    · simp only [h4, ht, ↓reduceIte, List.append_nil]
      exact hasAttr_caption_default _ (hesc link)
  · intro h4 ht
    have hq : ∀ i, (34 : Byte) ∉ (Split alt 44).getD i [] := fun i =>
      getD_quote_free _ _ (fun t ht hm => halt (Split_mem alt 44 t ht 34 hm).1)
    rw [Deck.Image_eq, List.drop_left]
    simp only [h4, ht, ↓reduceIte]
    rw [List.append_assoc, hasAttr_caption_four _ _ _ _ _ _ (hesc link) (hq 0) (hq 1) (hq 2) (hq 3)]
    have e : bytes " caption=\"" = 32 :: bytes "caption" ++ [61, 34] := by decide
    rw [e, List.append_assoc, List.append_assoc]
    exact hasAttrFrom_here _ _

set_option maxRecDepth 100000 in
theorem image_caption_witness :
    (34 : Byte) ∉ bytes "10,20,30,40" ∧ (∀ s, (34 : Byte) ∉ stdEnv.attrEscape s) ∧
    ((DeckRenderer 0).Image stdEnv (bytes "<slide>\n") (bytes "a.png") (bytes "Fig")
        (bytes "10,20,30,40")).2 =
      bytes ("<slide>\n<image name=\"a.png\" xp=\"10\" yp=\"20\" width=\"30\" height=\"40\""
        ++ " caption=\"Fig\" />\n") ∧
    ((bytes " caption=\"" ++ stdEnv.attrEscape (bytes "Fig") ++ bytes "\" />\n") <:+
      (((DeckRenderer 0).Image stdEnv (bytes "<slide>\n") (bytes "a.png") (bytes "Fig")
        (bytes "10,20,30,40")).2.drop (bytes "<slide>\n").length) ↔ bytes "Fig" ≠ []) ∧
    hasAttr (bytes "caption")
      (((DeckRenderer 0).Image stdEnv (bytes "<slide>\n") (bytes "a.png") (bytes "Fig")
        (bytes "10,20,30,40")).2.drop (bytes "<slide>\n").length) = true ∧
    hasAttr (bytes "caption")
      (((DeckRenderer 0).Image stdEnv (bytes "<slide>\n") (bytes "a.png") []
        (bytes "10,20,30,40")).2.drop (bytes "<slide>\n").length) = false :=
  have h1 : (34 : Byte) ∉ bytes "10,20,30,40" := by decide
  have h2 : ∀ s, (34 : Byte) ∉ stdEnv.attrEscape s := fun s h => (attrEscape_safe s _ h).1 rfl
  ⟨h1, h2, by decide,
    ((image_caption stdEnv (DeckRenderer 0) (bytes "<slide>\n") (bytes "a.png") (bytes "Fig")
      (bytes "10,20,30,40")).2.2 h1 h2).1,
    ((image_caption stdEnv (DeckRenderer 0) (bytes "<slide>\n") (bytes "a.png") (bytes "Fig")
      (bytes "10,20,30,40")).2.2 h1 h2).2.2 (by decide) (by decide),
    ((image_caption stdEnv (DeckRenderer 0) (bytes "<slide>\n") (bytes "a.png") []
      (bytes "10,20,30,40")).2.2 h1 h2).2.1 rfl⟩

/-- C15, amended. Paragraph state transition: with a children callback that
leaves the renderer state alone, `Paragraph` never changes xp, slidenumber or
the canvas size and always sets sp to 2; when the callback reports true yp
becomes the float64 difference `yp - 20`, and when it reports false yp is
unchanged; the call returns when the callback only appends. The difference is
exactly 20 lower whenever yp is a whole number `k` with `k` and `k - 20` below
`2^53` in magnitude. A successful `Header` ends by taking the float64
difference with 10 of the yp its level leaves (90 for level 1, 40 for level 2,
the incoming yp otherwise), so it ends at 80, at 30, or at `k - 10` from the
same whole `k`, above the `k - 20` of `Paragraph`. The indent `BlockQuote` adds
to xp (the float64 sum `xp + 5`, exact for whole numbers below `2^53`) is kept
by every run of `Paragraph` calls, and `Header` and `HRule` set xp back to
10. -/
theorem paragraph_state_transition (env : Env) (options : Deck) (out : Buffer)
    (text : Children) (hkeep : KeepsState text) :
    (∀ s1, options.Paragraph out text = some s1 →
      s1.1.xp = options.xp ∧ s1.1.slidenumber = options.slidenumber ∧
      s1.1.sp = Float64.ofNat 2 ∧ s1.1.cw = options.cw ∧ s1.1.ch = options.ch ∧
      (Reports text true → s1.1.yp = options.yp.sub (Float64.ofNat 20)) ∧
      (Reports text false → s1.1.yp = options.yp) ∧
      (Reports text true → ∀ k : Int, options.yp = Float64.ofInt k → k.natAbs < 2 ^ 53 →
        (k - 20).natAbs < 2 ^ 53 → s1.1.yp = Float64.ofInt (k - 20))) ∧
    (AppendsOnly text → ∃ s1, options.Paragraph out text = some s1) ∧
    (Reports text true → ∀ (level : Int) (sH : Deck × Buffer),
      options.Header out text level = some sH →
      sH.1.yp = (if level = 1 then Float64.ofNat 90 else if level = 2 then Float64.ofNat 40
        else options.yp).sub (Float64.ofNat 10) ∧
      (level = 1 → sH.1.yp = Float64.ofInt 80) ∧
      (level = 2 → sH.1.yp = Float64.ofInt 30) ∧
      (level ≠ 1 → level ≠ 2 → ∀ k : Int, options.yp = Float64.ofInt k → k.natAbs < 2 ^ 53 →
        (k - 20).natAbs < 2 ^ 53 →
        sH.1.yp = Float64.ofInt (k - 10) ∧ k - 20 < k - 10 ∧
        ∀ sP, options.Paragraph out text = some sP → sP.1.yp = Float64.ofInt (k - 20))) ∧
    (∀ t : Bytes, (options.BlockQuote env out t).1.xp = options.xp.add (Float64.ofNat 5) ∧
      ∀ k : Int, options.xp = Float64.ofInt k → k.natAbs < 2 ^ 53 → (k + 5).natAbs < 2 ^ 53 →
        (options.BlockQuote env out t).1.xp = Float64.ofInt (k + 5)) ∧
    (∀ (ops : List Op) (s s1 : Deck × Buffer),
      (∀ op ∈ ops, ∃ t, op = Op.Paragraph t ∧ KeepsState t) →
      run env ops s = some s1 → s1.1.xp = s.1.xp) ∧
    (∀ (level : Int) (s1 : Deck × Buffer), options.Header out text level = some s1 →
      s1.1.xp = Float64.ofNat 10) ∧
    (options.HRule out).1.xp = Float64.ofNat 10 := by
  have hpar : ∀ s1, options.Paragraph out text = some s1 → Reports text true →
      s1.1.yp = options.yp.sub (Float64.ofNat 20) := by
    intro s1 h hr
    rw [Deck.Paragraph_state options out text s1 hkeep h, hr]
    rfl
  have hpark : ∀ s1, options.Paragraph out text = some s1 → Reports text true →
      ∀ k : Int, options.yp = Float64.ofInt k → k.natAbs < 2 ^ 53 →
        (k - 20).natAbs < 2 ^ 53 → s1.1.yp = Float64.ofInt (k - 20) := by
    intro s1 h hr k hk h1 h2
    rw [hpar s1 h hr, hk, Float64.ofNat_eq_ofInt 20]
    exact Float64.sub_ofInt k 20 (by decide) h1 (by decide) h2
  refine ⟨fun s1 h => ?_, fun happ => ?_, fun hr level sH h => ?_, fun t => ⟨rfl, ?_⟩,
    fun ops s s1 hp h => run_paragraphs_xp env ops s s1 hp h,
    fun level s1 h => Deck.Header_xp options out text level s1 hkeep h, rfl⟩
  · have hs := Deck.Paragraph_state options out text s1 hkeep h
    refine ⟨?_, ?_, ?_, ?_, ?_, hpar s1 h, ?_, hpark s1 h⟩
    · rw [hs]; split_ifs <;> rfl
    · rw [hs]; split_ifs <;> rfl
    · rw [hs]; split_ifs <;> rfl
    · rw [hs]; split_ifs <;> rfl
    · rw [hs]; split_ifs <;> rfl
    · intro hr
      rw [hs, hr]
      rfl
  · exact Op.apply_returns env (Op.Paragraph text) (options, out)
      (fun t ht => by cases ht; exact happ)
  · have hs : sH.1 =
        if level = 1 then
          { options with xp := Float64.ofNat 10, sp := Float64.ofNat 4,
                         yp := (Float64.ofNat 90).sub (Float64.ofNat 10) }
        else if level = 2 then
          { options with xp := Float64.ofNat 10, sp := Float64.ofNat 3,
                         yp := (Float64.ofNat 40).sub (Float64.ofNat 10) }
        else { options with xp := Float64.ofNat 10, yp := options.yp.sub (Float64.ofNat 10) } := by
      have hk1 : ∀ d o, (text d o).1.1 = d := hkeep
      have hr1 : ∀ d o, (text d o).2 = true := hr
      unfold Deck.Header at h
      simp only [hk1, hr1, Bool.not_true, Bool.false_eq_true, ↓reduceIte] at h
      split_ifs at h with h1 h2
      · cases h; rw [if_pos h1]
      · cases h; rw [if_neg h1, if_pos h2]
      · cases h; rw [if_neg h1, if_neg h2]
    have hyp : sH.1.yp = (if level = 1 then Float64.ofNat 90 else if level = 2 then
        Float64.ofNat 40 else options.yp).sub (Float64.ofNat 10) := by
      rw [hs]; split_ifs <;> rfl
    refine ⟨hyp, fun hl => ?_, fun hl => ?_, fun hl1 hl2 k hk h1 h2 => ⟨?_, by omega, ?_⟩⟩
    · rw [hyp, if_pos hl]; decide
    · rw [hyp, if_neg (by omega), if_pos hl]; decide
    · rw [hyp, if_neg hl1, if_neg hl2, hk, Float64.ofNat_eq_ofInt 10]
      exact Float64.sub_ofInt k 10 (by decide) h1 (by decide) (by omega)
    · exact fun sP hP => hpark sP hP hr k hk h1 h2
  · intro k hk h1 h2
    show options.xp.add (Float64.ofNat 5) = Float64.ofInt (k + 5)
    rw [hk, Float64.ofNat_eq_ofInt 5]
    exact Float64.add_ofInt k 5 h1 (by decide) h2

set_option maxRecDepth 100000 in
theorem paragraph_state_transition_witness :
    KeepsState (writes (bytes "Body") true) ∧ Reports (writes (bytes "Body") true) true ∧
    (DeckRenderer 0).yp = Float64.ofInt 90 ∧
    (DeckRenderer 0).Paragraph (bytes "<slide>\n") (writes (bytes "Body") true) =
      some ({ DeckRenderer 0 with yp := Float64.ofNat 70 },
        bytes "<slide>\n<text xp=\"10.00\" yp=\"90.00\" sp=\"2.00\" type=\"block\">Body</text>\n") ∧
    ({ DeckRenderer 0 with yp := Float64.ofNat 70 } : Deck).yp = Float64.ofInt (90 - 20) ∧
    (DeckRenderer 0).Header (bytes "<slide>\n") (writes (bytes "Body") true) 3 =
      some ({ DeckRenderer 0 with yp := Float64.ofNat 80 }, bytes "<slide>\nBody</text>\n") ∧
    ({ DeckRenderer 0 with yp := Float64.ofNat 80 } : Deck).yp = Float64.ofInt (90 - 10) ∧
    (DeckRenderer 0).Header (bytes "<slide>\n") (writes (bytes "Body") true) 2 =
      some ({ DeckRenderer 0 with yp := Float64.ofNat 30, sp := Float64.ofNat 3 },
        bytes "<slide>\n<text xp=\"10.00\" yp=\"40.00\" sp=\"3.00\" type=\"\">Body</text>\n") ∧
    ({ DeckRenderer 0 with yp := Float64.ofNat 30, sp := Float64.ofNat 3 } : Deck).yp =
      Float64.ofInt 30 :=
  have h : (DeckRenderer 0).Paragraph (bytes "<slide>\n") (writes (bytes "Body") true) =
      some ({ DeckRenderer 0 with yp := Float64.ofNat 70 },
        bytes "<slide>\n<text xp=\"10.00\" yp=\"90.00\" sp=\"2.00\" type=\"block\">Body</text>\n") := by
    decide
  have h3 : (DeckRenderer 0).Header (bytes "<slide>\n") (writes (bytes "Body") true) 3 =
      some ({ DeckRenderer 0 with yp := Float64.ofNat 80 }, bytes "<slide>\nBody</text>\n") := by
    decide
  have h2 : (DeckRenderer 0).Header (bytes "<slide>\n") (writes (bytes "Body") true) 2 =
      some ({ DeckRenderer 0 with yp := Float64.ofNat 30, sp := Float64.ofNat 3 },
        bytes "<slide>\n<text xp=\"10.00\" yp=\"40.00\" sp=\"3.00\" type=\"\">Body</text>\n") := by
    decide
  ⟨fun _ _ => rfl, fun _ _ => rfl, by decide, h,
    ((paragraph_state_transition stdEnv (DeckRenderer 0) (bytes "<slide>\n")
      (writes (bytes "Body") true) (fun _ _ => rfl)).1 _ h).2.2.2.2.2.2.2 (fun _ _ => rfl) 90
      (by decide) (by decide) (by decide), h3,
    (((paragraph_state_transition stdEnv (DeckRenderer 0) (bytes "<slide>\n")
      (writes (bytes "Body") true) (fun _ _ => rfl)).2.2.1 (fun _ _ => rfl) 3 _ h3).2.2.2
      (by decide) (by decide) 90 (by decide) (by decide) (by decide)).1, h2,
    ((paragraph_state_transition stdEnv (DeckRenderer 0) (bytes "<slide>\n")
      (writes (bytes "Body") true) (fun _ _ => rfl)).2.2.1 (fun _ _ => rfl) 2 _ h2).2.2.1 rfl⟩

theorem Float64.digit_toNat (n : Nat) : (Float64.digit n).toNat = 48 + n % 10 := by
  have h : 48 + n % 10 < 256 := by omega
  simp only [Float64.digit, UInt8.toNat, UInt8.ofNat, BitVec.toNat_ofNat]
  omega

theorem isDigits_append (a b : Bytes) : isDigits (a ++ b) = (isDigits a && isDigits b) := by
  simp [isDigits, List.all_append]

theorem decimalValue_foldl (ds : Bytes) (init : Nat) :
    ds.foldl (fun acc b => acc * 10 + (b.toNat - 48)) init =
      init * 10 ^ ds.length + decimalValue ds := by
  induction ds generalizing init with
  | nil => simp [decimalValue]
  | cons b rest ih =>
    simp only [decimalValue, List.foldl_cons, List.length_cons]
    rw [ih, ih (0 * 10 + (b.toNat - 48))]
    ring

theorem decimalValue_append (a b : Bytes) :
    decimalValue (a ++ b) = decimalValue a * 10 ^ b.length + decimalValue b := by
  rw [decimalValue, List.foldl_append, decimalValue_foldl]
  rfl

theorem isDigits_digit (n : Nat) : isDigits [Float64.digit n] = true := by
  have h := Float64.digit_toNat n
  simp only [isDigits, List.all_cons, List.all_nil, Bool.and_true, Bool.and_eq_true,
    decide_eq_true_eq]
  omega

theorem decimalValue_digit (n : Nat) : decimalValue [Float64.digit n] = n % 10 := by
  have h := Float64.digit_toNat n
  simp only [decimalValue, List.foldl_cons, List.foldl_nil]
  omega

/-- The digits `natDigits` writes denote the number, and there is at least
one. -/
theorem Float64.natDigitsAux_spec (fuel n : Nat) (acc : Bytes) (h : n < fuel) :
    ∃ ds : Bytes, Float64.natDigitsAux fuel n acc = ds ++ acc ∧ ds ≠ [] ∧
      isDigits ds = true ∧ decimalValue ds = n := by
  induction fuel generalizing n acc with
  | zero => omega
  | succ fuel ih =>
    unfold Float64.natDigitsAux
    split_ifs with h10
    · refine ⟨[Float64.digit n], rfl, by simp, isDigits_digit n, ?_⟩
      rw [decimalValue_digit]
      omega
    · obtain ⟨ds, e, -, hd, hv⟩ := ih (n / 10) (Float64.digit n :: acc) (by omega)
      refine ⟨ds ++ [Float64.digit n], ?_, by simp, ?_, ?_⟩
      · rw [e]; simp
      · rw [isDigits_append, hd, isDigits_digit]; rfl
      · rw [decimalValue_append, hv, decimalValue_digit]
        simp only [List.length_singleton, pow_one]
        omega

theorem Float64.natDigits_spec (n : Nat) :
    Float64.natDigits n ≠ [] ∧ isDigits (Float64.natDigits n) = true ∧
      decimalValue (Float64.natDigits n) = n := by
  obtain ⟨ds, e, h1, h2, h3⟩ := Float64.natDigitsAux_spec (n + 1) n [] (by omega)
  rw [Float64.natDigits, e, List.append_nil]
  exact ⟨h1, h2, h3⟩

/-- The rounded quotient is within half of the quotient, and even when it is
exactly half away. -/
theorem Float64.divRoundEven_spec (n d : Nat) (hd : 0 < d) :
    2 * (Float64.divRoundEven n d * d) ≤ 2 * n + d ∧
    2 * n ≤ 2 * (Float64.divRoundEven n d * d) + d ∧
    ((2 * (Float64.divRoundEven n d * d) = 2 * n + d ∨
      2 * n = 2 * (Float64.divRoundEven n d * d) + d) → Float64.divRoundEven n d % 2 = 0) := by
  have h1 := Nat.div_add_mod n d
  have h2 := Nat.mod_lt n hd
  have h3 : (n / d + 1) * d = d * (n / d) + d := by ring
  have h4 : n / d * d = d * (n / d) := by ring
  unfold Float64.divRoundEven
  simp only
  split_ifs with hc
  · rw [h3]
    refine ⟨by omega, by omega, fun _ => by omega⟩
  · rw [h4]
    refine ⟨by omega, by omega, fun _ => by omega⟩

/-- The pair `scaled n 1 e` is the fraction `n * 2^e`. -/
theorem Float64.scaled_spec (n : Nat) (e : Int) :
    0 < (Float64.scaled n 1 e).2 ∧
      ((Float64.scaled n 1 e).1 : ℚ) = n * 2 ^ e * ((Float64.scaled n 1 e).2 : ℚ) := by
  unfold Float64.scaled
  split_ifs with h
  · refine ⟨Nat.one_pos, ?_⟩
    have he : (2 : ℚ) ^ e = 2 ^ e.toNat := by
      conv_lhs => rw [← Int.toNat_of_nonneg h]
      exact zpow_natCast 2 e.toNat
    rw [he]
    push_cast
    ring
  · refine ⟨by positivity, ?_⟩
    have he : (2 : ℚ) ^ e * 2 ^ (-e).toNat = 1 := by
      have h1 : ((-e).toNat : Int) = -e := Int.toNat_of_nonneg (by omega)
      rw [← zpow_natCast (2 : ℚ) (-e).toNat, h1, ← zpow_add₀ (by norm_num : (2 : ℚ) ≠ 0)]
      simp
    push_cast
    rw [one_mul, mul_assoc, he, mul_one]

/-- What `%.2f` prints for a finite value: an optional `-`, at least one
digit, a point and two digits, and the digits are those of the nearest whole
number of hundredths, the even one of two equally near. -/
theorem Float64.fmt2_fin_spec (s : Bool) (m : Nat) (e : Int) :
    ∃ whole frac : Bytes,
      (Float64.fin s m e).fmt2 = (if s then bytes "-" else []) ++ whole ++ bytes "." ++ frac ∧
      whole ≠ [] ∧ isDigits whole = true ∧ frac.length = 2 ∧ isDigits frac = true ∧
      |(decimalValue (whole ++ frac) : ℚ) - 100 * (m * 2 ^ e)| ≤ 1 / 2 ∧
      (|(decimalValue (whole ++ frac) : ℚ) - 100 * (m * 2 ^ e)| = 1 / 2 →
        decimalValue (whole ++ frac) % 2 = 0) := by
  obtain ⟨hpos, hval⟩ := Float64.scaled_spec (m * 100) e
  obtain ⟨hne, hdig, hdv⟩ := Float64.natDigits_spec
    (Float64.divRoundEven (Float64.scaled (m * 100) 1 e).1 (Float64.scaled (m * 100) 1 e).2 / 100)
  obtain ⟨hlo, hhi, htie⟩ := Float64.divRoundEven_spec (Float64.scaled (m * 100) 1 e).1
    (Float64.scaled (m * 100) 1 e).2 hpos
  generalize hpe : Float64.scaled (m * 100) 1 e = p at hpos hval hne hdig hdv hlo hhi htie
  generalize hh : Float64.divRoundEven p.1 p.2 = h at hne hdig hdv hlo hhi htie
  have hfrac : decimalValue [Float64.digit (h / 10), Float64.digit h] = h / 10 % 10 * 10 + h % 10 := by
    have e1 : [Float64.digit (h / 10), Float64.digit h] =
        [Float64.digit (h / 10)] ++ [Float64.digit h] := rfl
    rw [e1, decimalValue_append, decimalValue_digit, decimalValue_digit]
    simp
  have hall : decimalValue (Float64.natDigits (h / 100) ++
      [Float64.digit (h / 10), Float64.digit h]) = h := by
    rw [decimalValue_append, hdv, hfrac]
    simp only [List.length_cons, List.length_nil]
    omega
  have hx : (100 : ℚ) * (m * 2 ^ e) * (p.2 : ℚ) = (p.1 : ℚ) := by
    rw [hval]; push_cast; ring
  have hp : (0 : ℚ) < (p.2 : ℚ) := by exact_mod_cast hpos
  have hloq : (2 : ℚ) * ((h : ℚ) * (p.2 : ℚ)) ≤ 2 * (p.1 : ℚ) + (p.2 : ℚ) := by exact_mod_cast hlo
  have hhiq : (2 : ℚ) * (p.1 : ℚ) ≤ 2 * ((h : ℚ) * (p.2 : ℚ)) + (p.2 : ℚ) := by exact_mod_cast hhi
  refine ⟨Float64.natDigits (h / 100), [Float64.digit (h / 10), Float64.digit h], ?_, hne, hdig,
    rfl, ?_, ?_, ?_⟩
  · simp only [Float64.fmt2, hpe, hh]
  · have e1 : [Float64.digit (h / 10), Float64.digit h] =
        [Float64.digit (h / 10)] ++ [Float64.digit h] := rfl
    rw [e1, isDigits_append, isDigits_digit, isDigits_digit]
    rfl
  · rw [hall, abs_le]
    constructor
    · have : ((100 : ℚ) * (m * 2 ^ e) - 1 / 2) * (p.2 : ℚ) ≤ (h : ℚ) * (p.2 : ℚ) := by
        rw [sub_mul, hx]; linarith
      have := le_of_mul_le_mul_right this hp
      linarith
    · have : (h : ℚ) * (p.2 : ℚ) ≤ ((100 : ℚ) * (m * 2 ^ e) + 1 / 2) * (p.2 : ℚ) := by
        rw [add_mul, hx]; linarith
      have := le_of_mul_le_mul_right this hp
      linarith
  · rw [hall]
    intro habs
    apply htie
    rcases (abs_eq (by norm_num : (0 : ℚ) ≤ 1 / 2)).1 habs with h1 | h1
    · left
      have h2 : (h : ℚ) = 100 * (m * 2 ^ e) + 1 / 2 := by linarith
      have h3 : (2 : ℚ) * ((h : ℚ) * (p.2 : ℚ)) = 2 * (p.1 : ℚ) + (p.2 : ℚ) := by
        rw [h2, ← hx]; ring
      exact_mod_cast h3
    · right
      have h2 : (h : ℚ) = 100 * (m * 2 ^ e) - 1 / 2 := by linarith
      have h3 : (2 : ℚ) * (p.1 : ℚ) = 2 * ((h : ℚ) * (p.2 : ℚ)) + (p.2 : ℚ) := by
        rw [h2, ← hx]; ring
      exact_mod_cast h3

set_option maxRecDepth 100000 in
/-- C17 as stated fails: a cursor that is not a number, or is infinite, is not
printed with two fraction digits. With xp = NaN and yp = -Inf, `BlockCode`
appends `<text xp="NaN" yp="-Inf" sp="1.60" type="code">x</text>\n`; neither
value holds a decimal point, so neither is some bytes, a point and two
digits. -/
theorem block_code_cursor_not_finite :
    Deck.BlockCode stdEnv { DeckRenderer 0 with xp := Float64.nan, yp := Float64.inf true } []
        (bytes "x") [] =
      ({ DeckRenderer 0 with xp := Float64.nan, yp := Float64.inf true, sp := Float64.ofDecimal 16 10 },
        bytes "<text xp=\"NaN\" yp=\"-Inf\" sp=\"1.60\" type=\"code\">x</text>\n") ∧
    (46 : Byte) ∉ Float64.nan.fmt2 ∧ (46 : Byte) ∉ (Float64.inf true).fmt2 ∧
    (¬ ∃ whole frac : Bytes, frac.length = 2 ∧ isDigits frac = true ∧
      Float64.nan.fmt2 = whole ++ bytes "." ++ frac) ∧
    (¬ ∃ whole frac : Bytes, frac.length = 2 ∧ isDigits frac = true ∧
      (Float64.inf true).fmt2 = whole ++ bytes "." ++ frac) := by
  have h1 : (46 : Byte) ∉ Float64.nan.fmt2 := by decide
  have h2 : (46 : Byte) ∉ (Float64.inf true).fmt2 := by decide
  have hp : ∀ whole frac : Bytes, (46 : Byte) ∈ whole ++ bytes "." ++ frac := by
    intro whole frac
    have e : bytes "." = [46] := by decide
    rw [e]
    simp
  refine ⟨by decide, h1, h2, ?_, ?_⟩
  · rintro ⟨whole, frac, -, -, h⟩
    exact h1 (h ▸ hp whole frac)
  · rintro ⟨whole, frac, -, -, h⟩
    exact h2 (h ▸ hp whole frac)

set_option maxRecDepth 100000 in
/-- C17, amended. Code block is unconditional: in every state, for every
language and text (the empty text too), `BlockCode` appends `<text xp=X yp=Y
sp="1.60" type="code">`, the escaped text and `</text>\n` after what the sink
held, sets sp to 1.6 (the float64 nearest to it, `7205759403792794 * 2^-52`)
and leaves xp, yp, slidenumber and the canvas size unchanged. For a finite
cursor, X and Y are each an optional `-`, at least one digit, a point and
exactly two digits, and the digits read as a whole number of hundredths are
within one half of a hundred times the value, the even one of two equally
near. For a cursor that is not finite they are `NaN`, `+Inf` or `-Inf`. A fresh
renderer gives `xp="10.00" yp="90.00"`, and the cursor (0.125, -0.375) gives
`xp="0.12" yp="-0.38"`. -/
theorem block_code_unconditional (env : Env) (options : Deck) (out : Buffer)
    (text lang : Bytes) :
    options.BlockCode env out text lang =
      ({ options with sp := Float64.ofDecimal 16 10 },
        out ++ (bytes "<text xp=\"" ++ options.xp.fmt2 ++ bytes "\" yp=\"" ++ options.yp.fmt2
          ++ bytes "\" sp=\"1.60\" type=\"code\">") ++ env.attrEscape text ++ bytes "</text>\n") ∧
    options.BlockCode env out [] lang =
      ({ options with sp := Float64.ofDecimal 16 10 },
        out ++ (bytes "<text xp=\"" ++ options.xp.fmt2 ++ bytes "\" yp=\"" ++ options.yp.fmt2
          ++ bytes "\" sp=\"1.60\" type=\"code\">") ++ env.attrEscape [] ++ bytes "</text>\n") ∧
    Float64.ofDecimal 16 10 = Float64.fin false 7205759403792794 (-52) ∧
    (Float64.ofDecimal 16 10).fmt2 = bytes "1.60" ∧
    (∀ (sx : Bool) (mx : Nat) (ex : Int) (sy : Bool) (my : Nat) (ey : Int),
      ∃ wx fx wy fy : Bytes,
        (Deck.BlockCode env { options with xp := Float64.fin sx mx ex, yp := Float64.fin sy my ey }
            out text lang).2 =
          out ++ (bytes "<text xp=\"" ++ ((if sx then bytes "-" else []) ++ wx ++ bytes "." ++ fx)
            ++ bytes "\" yp=\"" ++ ((if sy then bytes "-" else []) ++ wy ++ bytes "." ++ fy)
            ++ bytes "\" sp=\"1.60\" type=\"code\">") ++ env.attrEscape text ++ bytes "</text>\n" ∧
        wx ≠ [] ∧ isDigits wx = true ∧ fx.length = 2 ∧ isDigits fx = true ∧
        |(decimalValue (wx ++ fx) : ℚ) - 100 * (mx * 2 ^ ex)| ≤ 1 / 2 ∧
        (|(decimalValue (wx ++ fx) : ℚ) - 100 * (mx * 2 ^ ex)| = 1 / 2 →
          decimalValue (wx ++ fx) % 2 = 0) ∧
        wy ≠ [] ∧ isDigits wy = true ∧ fy.length = 2 ∧ isDigits fy = true ∧
        |(decimalValue (wy ++ fy) : ℚ) - 100 * (my * 2 ^ ey)| ≤ 1 / 2 ∧
        (|(decimalValue (wy ++ fy) : ℚ) - 100 * (my * 2 ^ ey)| = 1 / 2 →
          decimalValue (wy ++ fy) % 2 = 0)) ∧
    Float64.nan.fmt2 = bytes "NaN" ∧ (Float64.inf false).fmt2 = bytes "+Inf" ∧
    (Float64.inf true).fmt2 = bytes "-Inf" ∧
    ((DeckRenderer 0).BlockCode env out text lang).2 =
      out ++ bytes "<text xp=\"10.00\" yp=\"90.00\" sp=\"1.60\" type=\"code\">"
        ++ env.attrEscape text ++ bytes "</text>\n" ∧
    (Deck.BlockCode env { DeckRenderer 0 with xp := Float64.ofDecimal 1 8, yp := (Float64.ofDecimal 3 8).neg }
        out text lang).2 =
      out ++ bytes "<text xp=\"0.12\" yp=\"-0.38\" sp=\"1.60\" type=\"code\">"
        ++ env.attrEscape text ++ bytes "</text>\n" := by
  have hsp : bytes "\" sp=\"1.60\" type=\"code\">" =
      bytes "\" sp=\"" ++ (bytes "1.60" ++ (bytes "\" type=\"" ++ (bytes "code" ++ bytes "\">"))) := by
    decide
  have h16 : (Float64.ofDecimal 16 10).fmt2 = bytes "1.60" := by decide
  have key : ∀ (o : Deck) (t : Bytes), o.BlockCode env out t lang =
      ({ o with sp := Float64.ofDecimal 16 10 },
        out ++ (bytes "<text xp=\"" ++ o.xp.fmt2 ++ bytes "\" yp=\"" ++ o.yp.fmt2
          ++ bytes "\" sp=\"1.60\" type=\"code\">") ++ env.attrEscape t ++ bytes "</text>\n") := by
    intro o t
    simp only [Deck.BlockCode, Deck.renderText, Buffer.Write, h16, hsp, List.append_assoc]
  refine ⟨key options text, key options [], by decide, h16, ?_, rfl, rfl, rfl, ?_, ?_⟩
  · intro sx mx ex sy my ey
    obtain ⟨wx, fx, hx, x1, x2, x3, x4, x5, x6⟩ := Float64.fmt2_fin_spec sx mx ex
    obtain ⟨wy, fy, hy, y1, y2, y3, y4, y5, y6⟩ := Float64.fmt2_fin_spec sy my ey
    refine ⟨wx, fx, wy, fy, ?_, x1, x2, x3, x4, x5, x6, y1, y2, y3, y4, y5, y6⟩
    rw [key, hx, hy]
  · have h : bytes "<text xp=\"10.00\" yp=\"90.00\" sp=\"1.60\" type=\"code\">" =
        bytes "<text xp=\"" ++ (DeckRenderer 0).xp.fmt2 ++ bytes "\" yp=\""
          ++ (DeckRenderer 0).yp.fmt2 ++ bytes "\" sp=\"1.60\" type=\"code\">" := by decide
    rw [key, h]
  · have h : bytes "<text xp=\"0.12\" yp=\"-0.38\" sp=\"1.60\" type=\"code\">" =
        bytes "<text xp=\"" ++ (Float64.ofDecimal 1 8).fmt2 ++ bytes "\" yp=\""
          ++ (Float64.ofDecimal 3 8).neg.fmt2 ++ bytes "\" sp=\"1.60\" type=\"code\">" := by decide
    rw [key, h]

end Blackfriday
